import Mathlib

/-
  Shallow embedding of the STM32 Web Flasher core (src/app.js):
  JavaScript number semantics helpers, the checksum kit (mspCrc8D5,
  xorChecksum), the byte-channel model, the bootloader client
  (blSync, blSendCmd, blErasePage, blWrite), the Intel HEX parser
  (parseHex) and the flash orchestrator (flash).

  JS numbers that can be NaN are modelled as `Option Int` (none = NaN);
  bitwise operators go through ToInt32/ToUint32 as in JS, and bytes
  written to the serial port go through Uint8Array's ToUint8.
-/

namespace STM32

/-! ### JS number semantics -/

/-- ToUint32 of an integer JS number: value modulo 2^32, non-negative. -/
def jsToUint32 (x : Int) : Nat := (x % (2 ^ 32)).toNat

/-- ToInt32 of an integer JS number: two's-complement reinterpretation of
the low 32 bits. -/
def jsToInt32 (x : Int) : Int :=
  if jsToUint32 x < 2 ^ 31 then Int.ofNat (jsToUint32 x)
  else Int.ofNat (jsToUint32 x) - 2 ^ 32

/-- A JS number that is either an integer or NaN (`none`). -/
abbrev JsNum := Option Int

/-- ToInt32 applied to a possibly-NaN JS number (ToInt32(NaN) = 0). -/
def toInt32N (v : JsNum) : Int :=
  match v with
  | none => 0
  | some x => jsToInt32 x

/-- JS bitwise `a ^ b` on integers (both sides pass through ToInt32). -/
def jsXor (a b : Int) : Int :=
  jsToInt32 (Int.ofNat (Nat.xor (jsToUint32 a) (jsToUint32 b)))

/-- JS `x & 0xFF` for an integer `x`: the low 8 bits of ToInt32(x),
which equals `x mod 256`. -/
def jsAnd255 (x : Int) : Int := x % 256

/-- JS arithmetic right shift `x >> n`: ToInt32 then floor-division by 2^n. -/
def jsShrI (x : Int) (n : Nat) : Int := Int.fdiv (jsToInt32 x) (2 ^ n)

/-- JS `v << 16` on an integer: 32-bit wrap-around shift, signed result. -/
def jsShl16 (v : Int) : Int := jsToInt32 (Int.ofNat (jsToUint32 v * 65536))

/-- Conversion applied by `new Uint8Array(bytes)` to each element
(ToUint8; NaN becomes 0). -/
def jsToUint8 (v : JsNum) : Nat :=
  match v with
  | none => 0
  | some x => (x % 256).toNat

/-! ### Constants (src/app.js lines 22-29) -/

def ACK : Nat := 0x79
def NACK : Nat := 0x1F
def FLASH_BASE : Int := 0x08000000
def PAGE_SIZE : Int := 2048
def WRITE_CHUNK : Nat := 32

/-! ### ChecksumKit -/

/-- One round of the mspCrc8D5 inner loop (src/app.js line 80-81):
shift left, conditionally XOR 0xD5, mask to 8 bits. -/
def crc8Round (crc : Nat) : Nat :=
  (if Nat.land crc 0x80 ≠ 0 then Nat.xor (crc <<< 1) 0xD5 else crc <<< 1) &&& 0xFF

/-- `n` iterations of `crc8Round`. -/
def crc8Rounds : Nat → Nat → Nat
  | 0, crc => crc
  | n + 1, crc => crc8Rounds n (crc8Round crc)

/-- mspCrc8D5 (src/app.js lines 75-85): per input byte, XOR into the
accumulator then 8 rounds of shift-and-conditionally-XOR-0xD5.
The source applies JS `^`/`&`/`<<`; for byte-sized inputs the Nat
operations used here coincide. -/
def mspCrc8D5 (buf : List Nat) : Nat :=
  buf.foldl (fun crc b => crc8Rounds 8 (Nat.xor crc b)) 0

/-- xorChecksum (src/app.js lines 137-139): `buf.reduce((a,b) => a ^ b, 0)`
with JS `^` semantics (NaN elements are treated as 0 by ToInt32). -/
def xorChecksum (buf : List JsNum) : Int :=
  buf.foldl (fun a b => jsXor a (toInt32N b)) 0

/-! ### Byte channel model

The serial port is modelled as a reply script (one entry per `readByte`
call; `none` means the read times out) plus observation logs: the bytes
sent, a ghost event trace and a ghost operation log. -/

/-- Observable channel events: bytes transmitted, a byte read with its
timeout argument, a sleep with its duration. -/
inductive Ev
  | tx (bytes : List Nat)
  | rd (timeoutMs : Nat)
  | slp (ms : Nat)
deriving DecidableEq

/-- Ghost log of bootloader operations attempted (one entry per
blErasePage / blWrite call, logged at function entry). -/
inductive Op
  | erase (page : Int)
  | write (addr : Int) (data : List JsNum)
deriving DecidableEq

structure Chan where
  script : Nat → Option Nat
  idx : Nat
  sent : List Nat
  events : List Ev
  ops : List Op

/-- A fresh channel with a given reply script. -/
def chan0 (s : Nat → Option Nat) : Chan :=
  { script := s, idx := 0, sent := [], events := [], ops := [] }

/-- writeBytes (src/app.js lines 47-49): `writer.write(new Uint8Array(bytes))`. -/
def writeBytes (bs : List JsNum) (c : Chan) : Chan :=
  { c with sent := c.sent ++ bs.map jsToUint8
         , events := c.events ++ [Ev.tx (bs.map jsToUint8)] }

/-- readByte (src/app.js lines 51-60): returns the next scripted byte, or
`none` when the script says the read times out (the JS code throws). -/
def readByteT (timeoutMs : Nat) (c : Chan) : Option Nat × Chan :=
  (c.script c.idx,
   { c with idx := c.idx + 1, events := c.events ++ [Ev.rd timeoutMs] })

/-- sleep (src/app.js lines 69-71), recorded as an event. -/
def sleepC (ms : Nat) (c : Chan) : Chan :=
  { c with events := c.events ++ [Ev.slp ms] }

/-- Errors thrown by the embedded code paths. -/
inductive Err
  | timeout
  | invalidResponse (b : Nat)
  | syncFailed
  | eraseFailed (page : Int)
  | writeFailed
deriving DecidableEq

/-! ### Bootloader client -/

/-- waitAck (src/app.js lines 62-67): read one byte (default timeout
2000 ms); ACK gives true, NACK gives false, anything else throws. -/
def waitAck (c : Chan) : Except Err Bool × Chan :=
  match readByteT 2000 c with
  | (none, c) => (.error .timeout, c)
  | (some b, c) =>
    if b = ACK then (.ok true, c)
    else if b = NACK then (.ok false, c)
    else (.error (.invalidResponse b), c)

/-- blSendCmd (src/app.js lines 132-135): send `[cmd, cmd ^ 0xFF]`, await ack. -/
def blSendCmd (cmd : Nat) (c : Chan) : Except Err Bool × Chan :=
  waitAck (writeBytes [some (Int.ofNat cmd), some (Int.ofNat (Nat.xor cmd 0xFF))] c)

/-- The `for (let i = 0; i < 5; i++)` loop of blSync, by remaining
attempts. A read timeout is caught; a non-ACK byte falls through; both
sleep 100 ms and retry. -/
def blSyncLoop : Nat → Chan → Except Err Unit × Chan
  | 0, c => (.error .syncFailed, c)
  | n + 1, c =>
    let c1 := writeBytes [some 0x7F] c
    match readByteT 500 c1 with
    | (some r, c2) =>
      if r = ACK then (.ok (), c2) else blSyncLoop n (sleepC 100 c2)
    | (none, c2) => blSyncLoop n (sleepC 100 c2)

/-- blSync (src/app.js lines 116-130): 5 attempts, then "Sync failed". -/
def blSync (c : Chan) : Except Err Unit × Chan := blSyncLoop 5 c

/-- The `writeBytes(payload); writeBytes([xorChecksum(payload)])` pattern
used by blErasePage (lines 162-163) and twice by blWrite (lines 176-177,
181-182). -/
def sendChecked (payload : List JsNum) (c : Chan) : Chan :=
  writeBytes [some (xorChecksum payload)] (writeBytes payload c)

/-- blErasePage (src/app.js lines 154-165). The ghost op log records the
attempt at entry. -/
def blErasePage (page : Int) (c : Chan) : Except Err Bool × Chan :=
  let c := { c with ops := c.ops ++ [Op.erase page] }
  match blSendCmd 0x44 c with
  | (.error e, c) => (.error e, c)
  | (.ok false, c) => (.ok false, c)
  | (.ok true, c) =>
    let payload : List Int := [0, 0, jsAnd255 (jsShrI page 8), jsAnd255 page]
    waitAck (sendChecked (payload.map some) c)

/-- blWrite (src/app.js lines 167-184). Note: no validation of
`data.length`; the length byte sent is `data.length - 1` truncated by
Uint8Array. The ghost op log records the attempt at entry. -/
def blWrite (addr : Int) (data : List JsNum) (c : Chan) : Except Err Bool × Chan :=
  let c := { c with ops := c.ops ++ [Op.write addr data] }
  match blSendCmd 0x31 c with
  | (.error e, c) => (.error e, c)
  | (.ok false, c) => (.ok false, c)
  | (.ok true, c) =>
    let addrBytes : List Int :=
      [jsAnd255 (jsShrI addr 24), jsAnd255 (jsShrI addr 16),
       jsAnd255 (jsShrI addr 8), jsAnd255 addr]
    match waitAck (sendChecked (addrBytes.map some) c) with
    | (.error e, c) => (.error e, c)
    | (.ok false, c) => (.ok false, c)
    | (.ok true, c) =>
      let payload : List JsNum := some ((data.length : Int) - 1) :: data
      waitAck (sendChecked payload c)

/-! ### Intel HEX parser

`parseHex` (src/app.js lines 188-209). The JS `Map` is modelled as an
insertion-ordered association list; `parseInt(s, 16)` is modelled
faithfully including its NaN result (`none`); text is given already
split into lines (the split on CR?LF does not affect per-line
processing). -/

/-- Characters treated as whitespace by JS `parseInt`. -/
def isJsSpace (c : Char) : Bool :=
  c.toNat = 9 || c.toNat = 10 || c.toNat = 11 || c.toNat = 12 ||
  c.toNat = 13 || c.toNat = 32 || c.toNat = 160 || c.toNat = 65279

/-- Value of a single hexadecimal digit character. -/
def hexDigVal (c : Char) : Option Nat :=
  if 48 ≤ c.toNat ∧ c.toNat ≤ 57 then some (c.toNat - 48)
  else if 65 ≤ c.toNat ∧ c.toNat ≤ 70 then some (c.toNat - 55)
  else if 97 ≤ c.toNat ∧ c.toNat ≤ 102 then some (c.toNat - 87)
  else none

/-- Accumulate hex digits until the first non-digit (parseInt ignores
trailing garbage). -/
def hexTail : List Char → Nat → Nat
  | [], acc => acc
  | c :: rest, acc =>
    match hexDigVal c with
    | some d => hexTail rest (acc * 16 + d)
    | none => acc

/-- parseInt requires at least one digit, else NaN. -/
def hexStart : List Char → Option Nat
  | [] => none
  | c :: rest =>
    match hexDigVal c with
    | some d => some (hexTail rest d)
    | none => none

/-- Strip an optional `0x`/`0X` prefix (radix 16). -/
def stripHexMark : List Char → List Char
  | '0' :: 'x' :: rest => rest
  | '0' :: 'X' :: rest => rest
  | s => s

/-- JS `parseInt(s, 16)`: skip whitespace, optional sign, optional
`0x` prefix, longest digit prefix; `none` is NaN. -/
def jsParseIntHex (s : List Char) : Option Int :=
  match s.dropWhile isJsSpace with
  | '-' :: rest => (hexStart (stripHexMark rest)).map (fun n => -(n : Int))
  | '+' :: rest => (hexStart (stripHexMark rest)).map (fun n => (n : Int))
  | t => (hexStart (stripHexMark t)).map (fun n => (n : Int))

/-- `line.substr(start, len)` on a line given as a character list. -/
def jsSubstr (s : List Char) (start len : Nat) : List Char :=
  (s.drop start).take len

/-- The memory image as built by the JS `Map`: insertion-ordered
key/value list; keys and values are JS numbers that may be NaN. -/
abbrev RawMem := List (Option Int × JsNum)

/-- `Map.set`: replace in place if the key is present (SameValueZero, so
NaN keys match), else append. -/
def memSet : RawMem → Option Int → JsNum → RawMem
  | [], k, v => [(k, v)]
  | (k', v') :: rest, k, v =>
    if k' = k then (k', v) :: rest else (k', v') :: memSet rest k v

/-- `Map.get` (also serves for `Map.has`). -/
def memGet (m : RawMem) (k : Option Int) : Option JsNum :=
  (m.find? (fun p => p.1 = k)).map (fun p => p.2)

/-- NaN-propagating JS addition. -/
def jsAdd (a b : JsNum) : JsNum :=
  match a, b with
  | some x, some y => some (x + y)
  | _, _ => none

/-- Iteration count of `for (let i = 0; i < len; i++)` when `len` is a
possibly-NaN, possibly-negative JS number. -/
def lenIter (len : JsNum) : Nat :=
  match len with
  | none => 0
  | some x => x.toNat

/-- The data-record byte loop (src/app.js lines 202-205): at step `i`,
parse `line.substr(9 + i*2, 2)` and set `mem[base + addr + i]`. -/
def writeDataLoop (line : List Char) (base : Int) (addr : JsNum) :
    Nat → Nat → RawMem → RawMem
  | _, 0, mem => mem
  | i, n + 1, mem =>
    let v := jsParseIntHex (jsSubstr line (9 + i * 2) 2)
    let key := jsAdd (jsAdd (some base) addr) (some (i : Int))
    writeDataLoop line base addr (i + 1) n (memSet mem key v)

/-- Processing of one line of the HEX file (src/app.js lines 192-207). -/
def parseHexLine (st : Int × RawMem) (line : List Char) : Int × RawMem :=
  if line.head? = some ':' then
    let base := st.1
    let mem := st.2
    let len := jsParseIntHex (jsSubstr line 1 2)
    let addr := jsParseIntHex (jsSubstr line 3 4)
    let ty := jsParseIntHex (jsSubstr line 7 2)
    if ty = some 4 then
      (match jsParseIntHex (jsSubstr line 9 4) with
       | none => 0
       | some v => jsShl16 v, mem)
    else if ty = some 0 then
      (base, writeDataLoop line base addr 0 (lenIter len) mem)
    else st
  else st

/-- parseHex (src/app.js lines 188-209) over pre-split lines. -/
def parseHex (lines : List (List Char)) : RawMem :=
  (lines.foldl parseHexLine (0, [])).2

/-! ### Flash orchestrator (src/app.js lines 213-247) -/

/-- `Math.min(...addrs)` over the image keys: `none` when the key list is
empty (JS +Infinity; flash then performs no operation, exactly as with
NaN) or when any key is NaN. -/
def jsMinKey (m : RawMem) : Option Int :=
  match m.map Prod.fst with
  | [] => none
  | k :: ks =>
    ks.foldl (fun a b =>
      match a, b with
      | some x, some y => some (min x y)
      | _, _ => none) k

/-- `Math.max(...addrs)` over the image keys, same conventions. -/
def jsMaxKey (m : RawMem) : Option Int :=
  match m.map Prod.fst with
  | [] => none
  | k :: ks =>
    ks.foldl (fun a b =>
      match a, b with
      | some x, some y => some (max x y)
      | _, _ => none) k

/-- `Math.floor((minAddr - FLASH_BASE) / PAGE_SIZE)` (src/app.js line 221). -/
def startPageOf (minA : Int) : Int := Int.fdiv (minA - FLASH_BASE) PAGE_SIZE

/-- `Math.floor((maxAddr - FLASH_BASE) / PAGE_SIZE)` (src/app.js line 222). -/
def endPageOf (maxA : Int) : Int := Int.fdiv (maxA - FLASH_BASE) PAGE_SIZE

/-- The erase loop `for (let p = startPage; p <= endPage; p++)`
(src/app.js lines 226-230), by remaining iteration count. -/
def eraseLoop : Nat → Int → Chan → Except Err Unit × Chan
  | 0, _, c => (.ok (), c)
  | n + 1, p, c =>
    match blErasePage p c with
    | (.error e, c) => (.error e, c)
    | (.ok false, c) => (.error (.eraseFailed p), c)
    | (.ok true, c) => eraseLoop n (p + 1) c

/-- `mem.has(addr) ? mem.get(addr) : 0xFF` (src/app.js lines 236-237). -/
def memVal (m : RawMem) (a : Int) : JsNum :=
  match memGet m (some a) with
  | some v => v
  | none => some 0xFF

/-- The chunk-building inner loop (src/app.js lines 234-240): push up to
`n` bytes, post-increment the address, break once past maxAddr.
Returns the chunk and the final address. -/
def buildChunk (m : RawMem) (maxA : Int) : Nat → Int → List JsNum × Int
  | 0, a => ([], a)
  | n + 1, a =>
    let v := memVal m a
    let a' := a + 1
    if a' > maxA then ([v], a')
    else
      let r := buildChunk m maxA n a'
      (v :: r.1, r.2)

/-- The outer write loop `while (addr <= maxAddr)` (src/app.js lines
233-244), with fuel; each iteration advances the address by the chunk
length (at least 1), so fuel `(maxA - minA + 1).toNat` suffices and the
fuel-exhausted case is never reached. -/
def writeLoop (m : RawMem) (maxA : Int) : Nat → Int → Chan → Except Err Unit × Chan
  | 0, _, c => (.ok (), c)
  | f + 1, a, c =>
    if a > maxA then (.ok (), c)
    else
      let bc := buildChunk m maxA WRITE_CHUNK a
      match blWrite (bc.2 - bc.1.length) bc.1 c with
      | (.error e, c) => (.error e, c)
      | (.ok false, c) => (.error .writeFailed, c)
      | (.ok true, c) => writeLoop m maxA f bc.2 c

/-- flash (src/app.js lines 213-247) on an already-parsed image: compute
the address range, erase pages startPage..endPage, then write chunks.
When the image is empty or a key is NaN, both JS loop guards are false
(comparisons with NaN / Infinity bounds) and no operation occurs. -/
def flash (mem : RawMem) (c : Chan) : Except Err Unit × Chan :=
  match jsMinKey mem, jsMaxKey mem with
  | some minA, some maxA =>
    (match eraseLoop (endPageOf maxA - startPageOf minA + 1).toNat (startPageOf minA) c with
     | (.error e, c) => (.error e, c)
     | (.ok _, c) => writeLoop mem maxA (maxA - minA + 1).toNat minA c)
  | _, _ => (.ok (), c)

/-! ### Observation projections and specification-side definitions -/

/-- The write operations recorded in an op log, in order. -/
def writesOf (ops : List Op) : List (Int × List JsNum) :=
  ops.filterMap (fun op =>
    match op with
    | .write a d => some (a, d)
    | _ => none)

/-- The erase operations recorded in an op log, in order. -/
def erasesOf (ops : List Op) : List Int :=
  ops.filterMap (fun op =>
    match op with
    | .erase p => some p
    | _ => none)

/-- The channel script that always replies ACK. -/
def allAckScript : Nat → Option Nat := fun _ => some ACK

/-- A channel script that never replies ACK. -/
def zeroScript : Nat → Option Nat := fun _ => some 0

/-- A channel script that ACKs everything except the completion of the
second erase command (reply number 3), which it NACKs. -/
def nackSecondErase : Nat → Option Nat :=
  fun i => if i = 3 then some NACK else some ACK

/-- The channel always replies ACK (position-independent, so it is
preserved by every step). -/
def AllAck (c : Chan) : Prop := ∀ n, c.script n = some ACK

/-- Specification-side chunk sequence, following the words of the claim:
starting at `minAddr`, consecutive chunks of `min WRITE_CHUNK remaining`
bytes in ascending address order, each byte taken from the image or
0xFF when absent. Compared against the chunks the code actually writes. -/
def specChunks (m : RawMem) (maxA : Int) : Nat → Int → List (Int × List JsNum)
  | 0, _ => []
  | f + 1, a =>
    if a > maxA then []
    else
      (a, (List.range (min WRITE_CHUNK (maxA - a + 1).toNat)).map
            (fun i : Nat => memVal m (a + (i : Int)))) ::
        specChunks m maxA f (a + ((min WRITE_CHUNK (maxA - a + 1).toNat : Nat) : Int))

/-- Plain XOR fold over naturals, the byte-level shadow of xorChecksum. -/
def natXor (l : List Nat) : Nat := l.foldl Nat.xor 0

/-! ### Intel HEX record encoder (specification side, for round-trip) -/

/-- Uppercase hexadecimal digit character. -/
def hexDigitChar (d : Nat) : Char :=
  if d < 10 then Char.ofNat (48 + d) else Char.ofNat (55 + d)

/-- Two-digit uppercase hex of a byte. -/
def hex2 (n : Nat) : List Char := [hexDigitChar (n / 16), hexDigitChar (n % 16)]

/-- Four-digit uppercase hex of a 16-bit value. -/
def hex4 (n : Nat) : List Char := hex2 (n / 256) ++ hex2 (n % 256)

/-- Intel HEX record checksum: two's complement of the byte sum. -/
def intelCk (l : List Nat) : Nat := (256 - (l.foldl (fun a b => a + b) 0) % 256) % 256

/-- Abstract Intel HEX records: Data (type 00), Extended Segment Address
(type 04), End Of File (type 01). -/
inductive HexRec
  | data (off : Nat) (bytes : List Nat)
  | esa (v : Nat)
  | eof

/-- Well-formedness of a record as it appears in a valid HEX file. -/
def wfRec : HexRec → Prop
  | .data off bytes => off < 65536 ∧ bytes.length ≤ 255 ∧ ∀ b ∈ bytes, b < 256
  | .esa v => v < 65536
  | .eof => True

/-- Textual encoding of one record, checksummed as in a valid HEX file. -/
def encodeRec : HexRec → List Char
  | .data off bytes =>
    ':' :: (hex2 bytes.length ++ hex4 off ++ hex2 0 ++ (bytes.map hex2).flatten
        ++ hex2 (intelCk ([bytes.length, off / 256, off % 256, 0] ++ bytes)))
  | .esa v =>
    ':' :: (hex2 2 ++ hex4 0 ++ hex2 4 ++ hex4 v
        ++ hex2 (intelCk [2, 0, 0, 4, v / 256, v % 256]))
  | .eof => ':' :: (hex2 0 ++ hex4 0 ++ hex2 1 ++ hex2 0xFF)

/-- Consecutive-address write list produced by one data record. -/
def seqWrites : Int → List Nat → List (Int × Nat)
  | _, [] => []
  | a, v :: vs => (a, v) :: seqWrites (a + 1) vs

/-- Writes contributed by one record at the current base. -/
def recWrites (base : Int) : HexRec → List (Int × Nat)
  | .data off bytes => seqWrites (base + (off : Int)) bytes
  | _ => []

/-- Base after processing one record (ESA sets `value << 16`). -/
def recBase (base : Int) : HexRec → Int
  | .esa v => jsShl16 ((v : Nat) : Int)
  | _ => base

/-- Address/value writes denoted by a record list, in file order. -/
def semWrites (base : Int) : List HexRec → List (Int × Nat)
  | [] => []
  | r :: rs => recWrites base r ++ semWrites (recBase base r) rs

/-- Store a byte list at consecutive addresses (what a data record does
to the image). -/
def writeList : RawMem → Int → List Nat → RawMem
  | m, _, [] => m
  | m, a, v :: vs => writeList (memSet m (some a) (some ((v : Nat) : Int))) (a + 1) vs

/-- Apply a write list to an image in order. -/
def applyWrites (m : RawMem) (ws : List (Int × Nat)) : RawMem :=
  ws.foldl (fun m w => memSet m (some w.1) (some ((w.2 : Nat) : Int))) m

/-- Base value after processing a whole record list. -/
def foldBase : Int → List HexRec → Int
  | b, [] => b
  | b, r :: rs => foldBase (recBase b r) rs

/-! ### Concrete fixtures -/

/-- One-byte image at the flash base. -/
def mem1 : RawMem := [(some FLASH_BASE, some 0xAA)]

/-- Two-entry image spanning pages 0 and 1. -/
def mem2 : RawMem := [(some FLASH_BASE, some 0xAA), (some (FLASH_BASE + PAGE_SIZE), some 0xBB)]

/-- Two-entry image whose address range is exactly one 2048-byte page. -/
def memPage : RawMem := [(some FLASH_BASE, some 1), (some (FLASH_BASE + 2047), some 2)]

/-- A 300-byte chunk, the spec's writeMemory rejection example. -/
def chunk300 : List JsNum := List.replicate 300 (some 0xAA)

/-- The line ":GG000000 41": record marker with unparseable length field. -/
def lineBadLen : List Char := [':', 'G', 'G', '0', '0', '0', '0', '0', '0', '4', '1']

/-- The line ":0100000041ZZ": well-formed data record whose checksum
field holds unparseable hex digits. -/
def lineBadCk : List Char :=
  [':', '0', '1', '0', '0', '0', '0', '0', '0', '4', '1', 'Z', 'Z']

/-- A valid three-record HEX file: ESA 0x0800, two data bytes, EOF. -/
def recsEx : List HexRec := [HexRec.esa 0x0800, HexRec.data 0 [0xAB, 0xCD], HexRec.eof]

/-- The channel state after one unsuccessful blSync attempt (0x7F sent,
one byte read with timeout 500, 100 ms sleep). -/
def syncStep (c : Chan) : Chan :=
  { script := c.script, idx := c.idx + 1, sent := c.sent ++ [0x7F],
    events := c.events ++ [Ev.tx [0x7F]] ++ [Ev.rd 500] ++ [Ev.slp 100],
    ops := c.ops }

/-- A channel script whose third reply (index 2) is ACK, earlier ones 0. -/
def ackAt2Script : Nat → Option Nat :=
  fun i => if i = 2 then some ACK else some 0

/-! ## Theorems -/

/-! ### XOR checksum algebra (claim C9 infrastructure) -/

theorem xor_zero_left (n : Nat) : Nat.xor 0 n = n := Nat.zero_xor n

theorem xor_zero_right (n : Nat) : Nat.xor n 0 = n := Nat.xor_zero n

theorem xor_assoc3 (a b c : Nat) :
    Nat.xor (Nat.xor a b) c = Nat.xor a (Nat.xor b c) := Nat.xor_assoc a b c

theorem xor_commut (a b : Nat) : Nat.xor a b = Nat.xor b a := Nat.xor_comm a b

theorem xor_self_zero (n : Nat) : Nat.xor n n = 0 := Nat.xor_self n

theorem xorLt256 (a b : Nat) (ha : a < 256) (hb : b < 256) :
    Nat.xor a b < 256 := by
  have h256 : (256 : Nat) = 2 ^ 8 := by norm_num
  rw [h256] at ha hb ⊢
  exact Nat.xor_lt_two_pow ha hb

theorem natXor_foldl (l : List Nat) (a : Nat) :
    l.foldl Nat.xor a = Nat.xor a (natXor l) := by
  induction l generalizing a with
  | nil => simp [natXor, xor_zero_right]
  | cons b l ih =>
    simp only [natXor, List.foldl_cons]
    rw [ih (Nat.xor a b), ih (Nat.xor 0 b), xor_zero_left, xor_assoc3]

theorem natXor_cons (b : Nat) (l : List Nat) :
    natXor (b :: l) = Nat.xor b (natXor l) := by
  simp only [natXor, List.foldl_cons]
  rw [natXor_foldl l (Nat.xor 0 b), xor_zero_left]
  rfl

theorem natXor_reverse (l : List Nat) : natXor l.reverse = natXor l := by
  induction l with
  | nil => rfl
  | cons b l ih =>
    rw [List.reverse_cons, natXor_cons]
    show (l.reverse ++ [b]).foldl Nat.xor 0 = _
    rw [List.foldl_append, List.foldl_cons, List.foldl_nil, natXor_foldl l.reverse,
      xor_zero_left, ih, xor_commut]

theorem natXor_append_self (l : List Nat) : natXor (l ++ [natXor l]) = 0 := by
  show (l ++ [natXor l]).foldl Nat.xor 0 = 0
  rw [List.foldl_append, List.foldl_cons, List.foldl_nil, natXor_foldl l,
    xor_zero_left, xor_self_zero]

theorem natXor_lt (l : List Nat) (h : ∀ b ∈ l, b < 256) : natXor l < 256 := by
  induction l with
  | nil => simp [natXor]
  | cons b l ih =>
    rw [natXor_cons]
    exact xorLt256 b (natXor l) (h b (by simp)) (ih (fun x hx => h x (by simp [hx])))

theorem jsToUint32_ofNat (n : Nat) (h : n < 4294967296) :
    jsToUint32 (Int.ofNat n) = n := by
  unfold jsToUint32
  rw [Int.ofNat_eq_coe]
  omega

theorem jsToInt32_ofNat (n : Nat) (h : n < 2147483648) :
    jsToInt32 (Int.ofNat n) = Int.ofNat n := by
  unfold jsToInt32
  rw [jsToUint32_ofNat n (by omega)]
  rw [if_pos (show n < 2 ^ 31 by omega)]

theorem jsXor_ofNat (a b : Nat) (ha : a < 256) (hb : b < 256) :
    jsXor (Int.ofNat a) (Int.ofNat b) = Int.ofNat (Nat.xor a b) := by
  unfold jsXor
  rw [jsToUint32_ofNat a (by omega), jsToUint32_ofNat b (by omega)]
  exact jsToInt32_ofNat _ (by have := xorLt256 a b ha hb; omega)

theorem xorChecksum_go (l : List Nat) :
    ∀ acc : Nat, acc < 256 → (∀ b ∈ l, b < 256) →
      List.foldl (fun a b => jsXor a (toInt32N b)) (Int.ofNat acc)
        (l.map (fun b => some (Int.ofNat b))) =
      Int.ofNat (l.foldl Nat.xor acc) := by
  induction l with
  | nil => intro acc _ _; rfl
  | cons b l ih =>
    intro acc hacc hl
    have hb : b < 256 := hl b (by simp)
    have hstep : jsXor (Int.ofNat acc) (toInt32N (some (Int.ofNat b))) =
        Int.ofNat (Nat.xor acc b) := by
      show jsXor (Int.ofNat acc) (jsToInt32 (Int.ofNat b)) = _
      rw [jsToInt32_ofNat b (by omega)]
      exact jsXor_ofNat acc b hacc hb
    simp only [List.map_cons, List.foldl_cons, hstep]
    exact ih (Nat.xor acc b) (xorLt256 acc b hacc hb) (fun x hx => hl x (by simp [hx]))

theorem xorChecksum_bytes (l : List Nat) (h : ∀ b ∈ l, b < 256) :
    xorChecksum (l.map (fun b => some (Int.ofNat b))) = Int.ofNat (natXor l) := by
  unfold xorChecksum natXor
  exact xorChecksum_go l 0 (by norm_num) h

/-- Claim C9: for every list of bytes, xorChecksum is reversal-invariant
and appending the checksum yields checksum zero. -/
theorem claim_C9 (ns : List Nat) (h : ∀ b ∈ ns, b < 256) :
    xorChecksum ((ns.map (fun b => some (Int.ofNat b))).reverse) =
      xorChecksum (ns.map (fun b => some (Int.ofNat b)))
    ∧ xorChecksum (ns.map (fun b => some (Int.ofNat b)) ++
        [some (xorChecksum (ns.map (fun b => some (Int.ofNat b))))]) = 0 := by
  have hrev : ∀ b ∈ ns.reverse, b < 256 := fun b hb => h b (List.mem_reverse.mp hb)
  constructor
  · rw [← List.map_reverse, xorChecksum_bytes ns.reverse hrev,
      xorChecksum_bytes ns h, natXor_reverse]
  · rw [xorChecksum_bytes ns h]
    have : ns.map (fun b => some (Int.ofNat b)) ++ [some (Int.ofNat (natXor ns))] =
        (ns ++ [natXor ns]).map (fun b => some (Int.ofNat b)) := by
      simp
    rw [this, xorChecksum_bytes (ns ++ [natXor ns])
      (by
        intro b hb
        rcases List.mem_append.mp hb with h1 | h2
        · exact h b h1
        · simp only [List.mem_singleton] at h2
          subst h2
          exact natXor_lt ns h), natXor_append_self]
    rfl

/-- Witness for claim C9 at the concrete byte list [1, 2, 3]. -/
theorem claim_C9_witness :
    xorChecksum (([1, 2, 3].map (fun b => some (Int.ofNat b))).reverse) =
      xorChecksum ([1, 2, 3].map (fun b => some (Int.ofNat b)))
    ∧ xorChecksum ([1, 2, 3].map (fun b => some (Int.ofNat b)) ++
        [some (xorChecksum ([1, 2, 3].map (fun b => some (Int.ofNat b))))]) = 0 :=
  claim_C9 [1, 2, 3] (by decide)

/-! ### CRC-8/D5 (claim C8) -/

/-- Claim C8: mspCrc8D5 of the empty list is 0; each appended input byte
is XORed into the accumulator and put through 8 shift-and-conditionally-
XOR-0xD5 rounds; and the function is order-sensitive: there are distinct
bytes a, b with crc([a,b]) different from crc([b,a]). -/
theorem claim_C8 :
    mspCrc8D5 [] = 0
    ∧ (∀ (l : List Nat) (b : Nat), b < 256 →
        mspCrc8D5 (l ++ [b]) = crc8Rounds 8 (Nat.xor (mspCrc8D5 l) b))
    ∧ ∃ a b : Nat, a < 256 ∧ b < 256 ∧ a ≠ b ∧
        mspCrc8D5 [a, b] ≠ mspCrc8D5 [b, a] := by
  refine ⟨rfl, ?_, 0, 1, by decide, by decide, by decide, by decide⟩
  intro l b _
  simp [mspCrc8D5, List.foldl_append]

/-- Witness for claim C8 (the hypothesis b < 256) at l = [3], b = 7. -/
theorem claim_C8_witness :
    mspCrc8D5 ([3] ++ [7]) = crc8Rounds 8 (Nat.xor (mspCrc8D5 [3]) 7) :=
  claim_C8.2.1 [3] 7 (by decide)

/-! ### writeMemory length handling (claim C2) -/

set_option maxRecDepth 100000 in
/-- Claim C2 is false of the code: blWrite performs no length validation.
With a 300-byte chunk it sends the full frame (command, address,
checksum, then a payload whose length byte is (300-1) mod 256 = 43) and
returns normally; with a 0-byte chunk the length byte is ToUint8(-1)
= 255. No InvalidChunkError exists anywhere in the code. -/
theorem claim_C2 :
    (blWrite FLASH_BASE chunk300 (chan0 allAckScript)).1 = .ok true
    ∧ (blWrite FLASH_BASE chunk300 (chan0 allAckScript)).2.sent.length = 309
    ∧ (blWrite FLASH_BASE chunk300 (chan0 allAckScript)).2.sent.get? 7 = some 43
    ∧ (blWrite FLASH_BASE ([] : List JsNum) (chan0 allAckScript)).1 = .ok true
    ∧ (blWrite FLASH_BASE ([] : List JsNum) (chan0 allAckScript)).2.sent =
        [0x31, 0xCE, 0x08, 0, 0, 0, 0x08, 0xFF, 0xFF] := by
  refine ⟨rfl, by decide, by decide, rfl, by decide⟩

/-! ### Parser error handling (claims C4) -/

/-- Counterexample to claim C4: parseHex cannot fail — it is a total
function with no throw path. On a line whose length field is the
unparseable "GG" it silently produces the empty image, and on a
well-formed data record whose checksum field is the unparseable "ZZ" it
happily stores the byte (the checksum field is never read). -/
theorem claim_C4_counterexample :
    parseHex [lineBadLen] = [] ∧ parseHex [lineBadCk] = [(some 0, some 0x41)] := by
  constructor <;> rfl

/-- Claim C4 as amended: parse never fails; a marker line whose length
field holds unparseable hex digits contributes no bytes to the image
(a type-04 line can still update the base), and well-formed lines with
unrecognized record types (and lines whose type field is unparseable)
are skipped entirely. The checksum field is never examined. -/
theorem claim_C4 :
    (∀ (b : Int) (m : RawMem) (line : List Char),
      line.head? = some ':' → jsParseIntHex (jsSubstr line 1 2) = none →
      (parseHexLine (b, m) line).2 = m)
    ∧ (∀ (st : Int × RawMem) (line : List Char) (t : Int),
      line.head? = some ':' → jsParseIntHex (jsSubstr line 7 2) = some t →
      t ≠ 4 → t ≠ 0 → parseHexLine st line = st)
    ∧ (∀ (st : Int × RawMem) (line : List Char),
      line.head? = some ':' → jsParseIntHex (jsSubstr line 7 2) = none →
      parseHexLine st line = st) := by
  refine ⟨?_, ?_, ?_⟩
  · intro b m line hhead hlen
    unfold parseHexLine
    rw [if_pos hhead, hlen]
    by_cases h4 : jsParseIntHex (jsSubstr line 7 2) = some 4
    · rw [if_pos h4]
    · rw [if_neg h4]
      by_cases h0 : jsParseIntHex (jsSubstr line 7 2) = some 0
      · rw [if_pos h0]
        rfl
      · rw [if_neg h0]
  · intro st line t hhead hty h4 h0
    unfold parseHexLine
    rw [if_pos hhead, hty]
    rw [if_neg (by simpa using h4), if_neg (by simpa using h0)]
  · intro st line hhead hty
    unfold parseHexLine
    rw [if_pos hhead, hty]
    rw [if_neg (by simp), if_neg (by simp)]

/-- Witness for the amended claim C4, at the concrete malformed line
":GG000000 41" and at a line of unrecognized type 0x05. -/
theorem claim_C4_witness :
    (parseHexLine (0, []) lineBadLen).2 = [] ∧
    parseHexLine (7, [(some 3, some 4)])
      [':', '0', '0', '0', '0', '0', '0', '0', '5'] = (7, [(some 3, some 4)]) :=
  ⟨claim_C4.1 0 [] lineBadLen rfl rfl,
   claim_C4.2.1 (7, [(some 3, some 4)]) [':', '0', '0', '0', '0', '0', '0', '0', '5']
     5 rfl rfl (by decide) (by decide)⟩


/-! ### Channel step lemmas -/

/-- Errors a channel read can produce (as opposed to the orchestrator's
own erase/write failures). -/
def chanErr (e : Err) : Prop := e = Err.timeout ∨ ∃ b, e = Err.invalidResponse b

theorem allAck_of_script_eq (c c' : Chan) (h : AllAck c) (he : c'.script = c.script) :
    AllAck c' := fun n => by rw [he]; exact h n

theorem waitAck_proj (c : Chan) :
    (waitAck c).2.script = c.script ∧ (waitAck c).2.ops = c.ops ∧
    ∀ e, (waitAck c).1 = Except.error e → chanErr e := by
  unfold waitAck readByteT
  rcases c.script c.idx with _ | b
  · exact ⟨rfl, rfl, fun e he => by cases he; exact Or.inl rfl⟩
  · dsimp only
    split_ifs with hb hb2
    · exact ⟨rfl, rfl, fun e he => by cases he⟩
    · exact ⟨rfl, rfl, fun e he => by cases he⟩
    · exact ⟨rfl, rfl, fun e he => by cases he; exact Or.inr ⟨b, rfl⟩⟩

theorem waitAck_allAck (c : Chan) (h : AllAck c) :
    (waitAck c).1 = Except.ok true := by
  unfold waitAck readByteT
  rw [h c.idx]
  rfl

theorem blSendCmd_proj (cmd : Nat) (c : Chan) :
    (blSendCmd cmd c).2.script = c.script ∧ (blSendCmd cmd c).2.ops = c.ops ∧
    ∀ e, (blSendCmd cmd c).1 = Except.error e → chanErr e := by
  unfold blSendCmd
  exact waitAck_proj _

theorem blSendCmd_allAck (cmd : Nat) (c : Chan) (h : AllAck c) :
    (blSendCmd cmd c).1 = Except.ok true := by
  unfold blSendCmd
  exact waitAck_allAck _ (allAck_of_script_eq c _ h rfl)

theorem blErasePage_proj (p : Int) (c : Chan) :
    (blErasePage p c).2.script = c.script ∧
    (blErasePage p c).2.ops = c.ops ++ [Op.erase p] ∧
    ∀ e, (blErasePage p c).1 = Except.error e → chanErr e := by
  have hp := blSendCmd_proj 0x44 { c with ops := c.ops ++ [Op.erase p] }
  rcases h1 : blSendCmd 0x44 { c with ops := c.ops ++ [Op.erase p] } with ⟨r1, c1⟩
  rw [h1] at hp
  have hs1 : c1.script = c.script := hp.1
  have ho1 : c1.ops = c.ops ++ [Op.erase p] := hp.2.1
  have he1 : ∀ e, r1 = Except.error e → chanErr e := hp.2.2
  rcases r1 with e | b
  · simp only [blErasePage, h1]
    exact ⟨hs1, ho1, fun e' he' => by cases he'; exact he1 _ rfl⟩
  · rcases b with _ | _
    · simp only [blErasePage, h1]
      exact ⟨hs1, ho1, fun e' he' => by cases he'⟩
    · simp only [blErasePage, h1]
      have hw := waitAck_proj (sendChecked
        (List.map some [0, 0, jsAnd255 (jsShrI p 8), jsAnd255 p]) c1)
      exact ⟨hw.1.trans hs1, hw.2.1.trans ho1, hw.2.2⟩

theorem blErasePage_allAck (p : Int) (c : Chan) (h : AllAck c) :
    (blErasePage p c).1 = Except.ok true := by
  have hok := blSendCmd_allAck 0x44 { c with ops := c.ops ++ [Op.erase p] }
    (allAck_of_script_eq c _ h rfl)
  have hp := blSendCmd_proj 0x44 { c with ops := c.ops ++ [Op.erase p] }
  rcases h1 : blSendCmd 0x44 { c with ops := c.ops ++ [Op.erase p] } with ⟨r1, c1⟩
  rw [h1] at hok hp
  have hr1 : r1 = Except.ok true := hok
  subst hr1
  have hs1 : c1.script = c.script := hp.1
  simp only [blErasePage, h1]
  exact waitAck_allAck _ (allAck_of_script_eq c _ h hs1)

theorem blWrite_proj (a : Int) (d : List JsNum) (c : Chan) :
    (blWrite a d c).2.script = c.script ∧
    (blWrite a d c).2.ops = c.ops ++ [Op.write a d] ∧
    ∀ e, (blWrite a d c).1 = Except.error e → chanErr e := by
  have hp := blSendCmd_proj 0x31 { c with ops := c.ops ++ [Op.write a d] }
  rcases h1 : blSendCmd 0x31 { c with ops := c.ops ++ [Op.write a d] } with ⟨r1, c1⟩
  rw [h1] at hp
  have hs1 : c1.script = c.script := hp.1
  have ho1 : c1.ops = c.ops ++ [Op.write a d] := hp.2.1
  have he1 : ∀ e, r1 = Except.error e → chanErr e := hp.2.2
  rcases r1 with e | b
  · simp only [blWrite, h1]
    exact ⟨hs1, ho1, fun e' he' => by cases he'; exact he1 _ rfl⟩
  · rcases b with _ | _
    · simp only [blWrite, h1]
      exact ⟨hs1, ho1, fun e' he' => by cases he'⟩
    · have hq := waitAck_proj (sendChecked (List.map some
        [jsAnd255 (jsShrI a 24), jsAnd255 (jsShrI a 16),
         jsAnd255 (jsShrI a 8), jsAnd255 a]) c1)
      rcases h2 : waitAck (sendChecked (List.map some
        [jsAnd255 (jsShrI a 24), jsAnd255 (jsShrI a 16),
         jsAnd255 (jsShrI a 8), jsAnd255 a]) c1) with ⟨r2, c2⟩
      rw [h2] at hq
      have hs2 : c2.script = c1.script := hq.1
      have ho2 : c2.ops = c1.ops := hq.2.1
      have he2 : ∀ e, r2 = Except.error e → chanErr e := hq.2.2
      rcases r2 with e | b2
      · simp only [blWrite, h1, h2]
        exact ⟨hs2.trans hs1, ho2.trans ho1, fun e' he' => by cases he'; exact he2 _ rfl⟩
      · rcases b2 with _ | _
        · simp only [blWrite, h1, h2]
          exact ⟨hs2.trans hs1, ho2.trans ho1, fun e' he' => by cases he'⟩
        · simp only [blWrite, h1, h2]
          have hr := waitAck_proj (sendChecked (some ((d.length : Int) - 1) :: d) c2)
          exact ⟨hr.1.trans (hs2.trans hs1), hr.2.1.trans (ho2.trans ho1), hr.2.2⟩

theorem blWrite_allAck (a : Int) (d : List JsNum) (c : Chan) (h : AllAck c) :
    (blWrite a d c).1 = Except.ok true := by
  have hok := blSendCmd_allAck 0x31 { c with ops := c.ops ++ [Op.write a d] }
    (allAck_of_script_eq c _ h rfl)
  have hp := blSendCmd_proj 0x31 { c with ops := c.ops ++ [Op.write a d] }
  rcases h1 : blSendCmd 0x31 { c with ops := c.ops ++ [Op.write a d] } with ⟨r1, c1⟩
  rw [h1] at hok hp
  have hr1 : r1 = Except.ok true := hok
  subst hr1
  have hs1 : c1.script = c.script := hp.1
  have hAck1 : AllAck c1 := allAck_of_script_eq c c1 h hs1
  have hok2 := waitAck_allAck (sendChecked (List.map some
      [jsAnd255 (jsShrI a 24), jsAnd255 (jsShrI a 16),
       jsAnd255 (jsShrI a 8), jsAnd255 a]) c1)
    (allAck_of_script_eq c1 _ hAck1 rfl)
  have hq := waitAck_proj (sendChecked (List.map some
      [jsAnd255 (jsShrI a 24), jsAnd255 (jsShrI a 16),
       jsAnd255 (jsShrI a 8), jsAnd255 a]) c1)
  rcases h2 : waitAck (sendChecked (List.map some
      [jsAnd255 (jsShrI a 24), jsAnd255 (jsShrI a 16),
       jsAnd255 (jsShrI a 8), jsAnd255 a]) c1) with ⟨r2, c2⟩
  rw [h2] at hok2 hq
  have hr2 : r2 = Except.ok true := hok2
  subst hr2
  have hs2 : c2.script = c1.script := hq.1
  simp only [blWrite, h1, h2]
  exact waitAck_allAck _ (allAck_of_script_eq c1 _ hAck1 hs2)

/-! ### Op-log projections -/

theorem writesOf_append (l1 l2 : List Op) :
    writesOf (l1 ++ l2) = writesOf l1 ++ writesOf l2 :=
  List.filterMap_append l1 l2 _

theorem erasesOf_append (l1 l2 : List Op) :
    erasesOf (l1 ++ l2) = erasesOf l1 ++ erasesOf l2 :=
  List.filterMap_append l1 l2 _

theorem erasesOf_map_erase (l : List Int) : erasesOf (l.map Op.erase) = l := by
  induction l with
  | nil => rfl
  | cons p l ih =>
    show p :: erasesOf (l.map Op.erase) = p :: l
    rw [ih]

theorem writesOf_map_erase (l : List Int) : writesOf (l.map Op.erase) = [] := by
  induction l with
  | nil => rfl
  | cons p l ih =>
    show writesOf (l.map Op.erase) = []
    exact ih

theorem erasesOf_write (a : Int) (d : List JsNum) : erasesOf [Op.write a d] = [] := rfl

theorem writesOf_write (a : Int) (d : List JsNum) :
    writesOf [Op.write a d] = [(a, d)] := rfl

theorem mem_writesOf (ops : List Op) (a : Int) (d : List JsNum)
    (h : Op.write a d ∈ ops) : (a, d) ∈ writesOf ops :=
  List.mem_filterMap.mpr ⟨Op.write a d, h, rfl⟩

theorem erase_range_shift (k : Nat) (p : Int) :
    Op.erase p :: (List.range k).map (fun i : Nat => Op.erase (p + 1 + (i : Int))) =
    (List.range (k + 1)).map (fun i : Nat => Op.erase (p + (i : Int))) := by
  rw [List.range_succ_eq_map, List.map_cons, List.map_map]
  refine List.cons_eq_cons.mpr ⟨by simp, ?_⟩
  apply List.map_congr_left
  intro i _
  simp only [Function.comp_apply]
  congr 1
  push_cast
  ring

/-! ### Erase loop characterization -/

theorem eraseLoop_spec : ∀ (n : Nat) (p : Int) (c : Chan),
    (eraseLoop n p c).2.script = c.script ∧
    ∃ k : Nat, k ≤ n ∧
      (eraseLoop n p c).2.ops =
        c.ops ++ (List.range k).map (fun i : Nat => Op.erase (p + (i : Int))) ∧
      ((eraseLoop n p c).1 = Except.ok () → k = n) ∧
      (∀ q, (eraseLoop n p c).1 = Except.error (Err.eraseFailed q) →
        ∃ j : Nat, k = j + 1 ∧ q = p + (j : Int)) := by
  intro n
  induction n with
  | zero =>
    intro p c
    exact ⟨rfl, 0, Nat.le_refl 0, by simp [eraseLoop], fun _ => rfl,
      fun q hq => by simp [eraseLoop] at hq⟩
  | succ n ih =>
    intro p c
    have hp := blErasePage_proj p c
    rcases hE : blErasePage p c with ⟨r, c1⟩
    rw [hE] at hp
    have hs1 : c1.script = c.script := hp.1
    have ho1 : c1.ops = c.ops ++ [Op.erase p] := hp.2.1
    have he1 : ∀ e, r = Except.error e → chanErr e := hp.2.2
    rcases r with e | b
    · simp only [eraseLoop, hE]
      refine ⟨hs1, 1, by omega, ?_, ?_, ?_⟩
      · rw [ho1]
        rw [show List.range 1 = [0] from rfl]
        simp
      · intro hok
        simp at hok
      · intro q hq
        injection hq with h
        subst h
        rcases he1 _ rfl with h | ⟨b, hb⟩
        · cases h
        · cases hb
    · rcases b with _ | _
      · simp only [eraseLoop, hE]
        refine ⟨hs1, 1, by omega, ?_, ?_, ?_⟩
        · rw [ho1]
          rw [show List.range 1 = [0] from rfl]
          simp
        · intro hok
          simp at hok
        · intro q hq
          injection hq with h
          injection h with h2
          subst h2
          exact ⟨0, rfl, by simp⟩
      · obtain ⟨hs, k, hk, hops, hok, herr⟩ := ih (p + 1) c1
        simp only [eraseLoop, hE]
        refine ⟨hs.trans hs1, k + 1, by omega, ?_, ?_, ?_⟩
        · rw [hops, ho1, List.append_assoc, List.singleton_append, erase_range_shift]
        · intro h
          rw [hok h]
        · intro q hq
          obtain ⟨j, hj, hq'⟩ := herr q hq
          exact ⟨j + 1, by omega, by rw [hq']; push_cast; ring⟩

theorem eraseLoop_allAck : ∀ (n : Nat) (p : Int) (c : Chan), AllAck c →
    (eraseLoop n p c).1 = Except.ok () ∧
    (eraseLoop n p c).2.script = c.script ∧
    (eraseLoop n p c).2.ops =
      c.ops ++ (List.range n).map (fun i : Nat => Op.erase (p + (i : Int))) := by
  intro n
  induction n with
  | zero => intro p c _; exact ⟨rfl, rfl, by simp [eraseLoop]⟩
  | succ n ih =>
    intro p c hAck
    have hok := blErasePage_allAck p c hAck
    have hp := blErasePage_proj p c
    rcases hE : blErasePage p c with ⟨r, c1⟩
    rw [hE] at hok hp
    have hr : r = Except.ok true := hok
    subst hr
    have hs1 : c1.script = c.script := hp.1
    have ho1 : c1.ops = c.ops ++ [Op.erase p] := hp.2.1
    obtain ⟨h1, h2, h3⟩ := ih (p + 1) c1 (allAck_of_script_eq c c1 hAck hs1)
    simp only [eraseLoop, hE]
    refine ⟨h1, h2.trans hs1, ?_⟩
    rw [h3, ho1, List.append_assoc, List.singleton_append, erase_range_shift]

/-! ### Chunk construction characterization -/

theorem buildChunk_spec (m : RawMem) (maxA : Int) :
    ∀ (n : Nat) (a : Int), a ≤ maxA →
      (buildChunk m maxA n a).1 =
        (List.range (min n (maxA - a + 1).toNat)).map
          (fun i : Nat => memVal m (a + (i : Int))) ∧
      (buildChunk m maxA n a).2 = a + ((min n (maxA - a + 1).toNat : Nat) : Int) := by
  intro n
  induction n with
  | zero =>
    intro a _
    exact ⟨by simp [buildChunk], by simp [buildChunk]⟩
  | succ n ih =>
    intro a ha
    simp only [buildChunk]
    by_cases hgt : a + 1 > maxA
    · rw [if_pos hgt]
      have hm : (maxA - a + 1).toNat = 1 := by omega
      have hmin : min (n + 1) (maxA - a + 1).toNat = 1 := by omega
      rw [hmin]
      constructor
      · rw [show List.range 1 = [0] from rfl]
        simp
      · simp
    · have ha1 : a + 1 ≤ maxA := by omega
      obtain ⟨hc, hs⟩ := ih (a + 1) ha1
      rw [if_neg hgt]
      have ht : (maxA - a + 1).toNat = (maxA - (a + 1) + 1).toNat + 1 := by omega
      rw [ht, Nat.succ_min_succ]
      constructor
      · show memVal m a :: (buildChunk m maxA n (a + 1)).1 = _
        rw [hc, List.range_succ_eq_map, List.map_cons, List.map_map]
        refine List.cons_eq_cons.mpr ⟨by simp, ?_⟩
        apply List.map_congr_left
        intro i _
        simp only [Function.comp_apply]
        congr 1
        push_cast
        ring
      · show (buildChunk m maxA n (a + 1)).2 = _
        rw [hs]
        push_cast
        ring

theorem specChunks_mem_len (m : RawMem) (maxA : Int) :
    ∀ (f : Nat) (a : Int) (x : Int × List JsNum),
      x ∈ specChunks m maxA f a → 1 ≤ x.2.length ∧ x.2.length ≤ WRITE_CHUNK := by
  intro f
  induction f with
  | zero =>
    intro a x hx
    simp [specChunks] at hx
  | succ f ih =>
    intro a x hx
    by_cases hgt : a > maxA
    · simp only [specChunks] at hx
      rw [if_pos hgt] at hx
      cases hx
    · simp only [specChunks] at hx
      rw [if_neg hgt] at hx
      rcases List.mem_cons.mp hx with h | h
      · subst h
        have h1 : 1 ≤ (maxA - a + 1).toNat := by omega
        simp only [List.length_map, List.length_range]
        have h32 : WRITE_CHUNK = 32 := rfl
        omega
      · exact ih _ x h

/-! ### Write loop characterization -/

theorem writeLoop_spec (m : RawMem) (maxA : Int) :
    ∀ (f : Nat) (a : Int) (c : Chan),
      (writeLoop m maxA f a c).2.script = c.script ∧
      erasesOf (writeLoop m maxA f a c).2.ops = erasesOf c.ops ∧
      (∀ q, (writeLoop m maxA f a c).1 = Except.error (Err.eraseFailed q) → False) ∧
      ∃ pre rest,
        writesOf (writeLoop m maxA f a c).2.ops = writesOf c.ops ++ pre ∧
        pre ++ rest = specChunks m maxA f a ∧
        ((writeLoop m maxA f a c).1 = Except.ok () →
          (maxA - a + 1).toNat ≤ f → rest = []) := by
  intro f
  induction f with
  | zero =>
    intro a c
    exact ⟨rfl, rfl, fun q hq => by simp [writeLoop] at hq,
      [], [], by simp [writeLoop], rfl, fun _ _ => rfl⟩
  | succ f ih =>
    intro a c
    by_cases hgt : a > maxA
    · simp only [writeLoop]
      rw [if_pos hgt]
      refine ⟨rfl, rfl, fun q hq => by simp at hq, [], [], by simp, ?_, fun _ _ => rfl⟩
      simp only [specChunks]
      rw [if_pos hgt]
      rfl
    · have ha : a ≤ maxA := by omega
      obtain ⟨hch, hsnd⟩ := buildChunk_spec m maxA WRITE_CHUNK a ha
      have hlen : (buildChunk m maxA WRITE_CHUNK a).1.length =
          min WRITE_CHUNK (maxA - a + 1).toNat := by
        rw [hch]
        simp
      have hstart : (buildChunk m maxA WRITE_CHUNK a).2 -
          ((buildChunk m maxA WRITE_CHUNK a).1.length : Int) = a := by
        rw [hlen, hsnd]
        ring
      have hp := blWrite_proj ((buildChunk m maxA WRITE_CHUNK a).2 -
          ((buildChunk m maxA WRITE_CHUNK a).1.length : Int))
          (buildChunk m maxA WRITE_CHUNK a).1 c
      rcases hW : blWrite ((buildChunk m maxA WRITE_CHUNK a).2 -
          ((buildChunk m maxA WRITE_CHUNK a).1.length : Int))
          (buildChunk m maxA WRITE_CHUNK a).1 c with ⟨r, c1⟩
      rw [hW] at hp
      have hs1 : c1.script = c.script := hp.1
      have ho1 : c1.ops = c.ops ++ [Op.write ((buildChunk m maxA WRITE_CHUNK a).2 -
          ((buildChunk m maxA WRITE_CHUNK a).1.length : Int))
          (buildChunk m maxA WRITE_CHUNK a).1] := hp.2.1
      have he1 : ∀ e, r = Except.error e → chanErr e := hp.2.2
      have hwrites1 : writesOf c1.ops = writesOf c.ops ++
          [(a, (buildChunk m maxA WRITE_CHUNK a).1)] := by
        rw [ho1, writesOf_append, hstart, writesOf_write]
      have herase1 : erasesOf c1.ops = erasesOf c.ops := by
        rw [ho1, erasesOf_append, erasesOf_write, List.append_nil]
      have hspec : specChunks m maxA (f + 1) a =
          (a, (buildChunk m maxA WRITE_CHUNK a).1) ::
            specChunks m maxA f
              (a + ((min WRITE_CHUNK (maxA - a + 1).toNat : Nat) : Int)) := by
        simp only [specChunks]
        rw [if_neg hgt, hch]
      rcases r with e | b
      · simp only [writeLoop, hW]
        rw [if_neg hgt]
        refine ⟨hs1, herase1, fun q hq => ?_,
          [(a, (buildChunk m maxA WRITE_CHUNK a).1)],
          specChunks m maxA f
            (a + ((min WRITE_CHUNK (maxA - a + 1).toNat : Nat) : Int)),
          hwrites1, by rw [hspec]; rfl, ?_⟩
        · injection hq with h
          subst h
          rcases he1 _ rfl with h | ⟨b, hb⟩
          · cases h
          · cases hb
        · intro hok
          simp at hok
      · rcases b with _ | _
        · simp only [writeLoop, hW]
          rw [if_neg hgt]
          refine ⟨hs1, herase1, fun q hq => ?_,
            [(a, (buildChunk m maxA WRITE_CHUNK a).1)],
            specChunks m maxA f
              (a + ((min WRITE_CHUNK (maxA - a + 1).toNat : Nat) : Int)),
            hwrites1, by rw [hspec]; rfl, ?_⟩
          · injection hq with h
            cases h
          · intro hok
            simp at hok
        · obtain ⟨hs2, he2, hno2, pre, rest, hw2, hsp2, hfull2⟩ :=
            ih (buildChunk m maxA WRITE_CHUNK a).2 c1
          simp only [writeLoop, hW]
          rw [if_neg hgt]
          refine ⟨hs2.trans hs1, he2.trans herase1, hno2,
            (a, (buildChunk m maxA WRITE_CHUNK a).1) :: pre, rest, ?_, ?_, ?_⟩
          · rw [hw2, hwrites1, List.append_assoc, List.singleton_append]
          · rw [List.cons_append, hsp2, hspec, hsnd]
          · intro hok hfuel
            refine hfull2 hok ?_
            rw [hsnd]
            have hlen1 : 1 ≤ min WRITE_CHUNK (maxA - a + 1).toNat := by
              have h32 : WRITE_CHUNK = 32 := rfl
              omega
            set L := min WRITE_CHUNK (maxA - a + 1).toNat with hLdef
            omega

theorem writeLoop_allAck (m : RawMem) (maxA : Int) :
    ∀ (f : Nat) (a : Int) (c : Chan), AllAck c →
      (writeLoop m maxA f a c).1 = Except.ok () := by
  intro f
  induction f with
  | zero => intro a c _; rfl
  | succ f ih =>
    intro a c hAck
    by_cases hgt : a > maxA
    · simp only [writeLoop]
      rw [if_pos hgt]
    · have hok := blWrite_allAck ((buildChunk m maxA WRITE_CHUNK a).2 -
          ((buildChunk m maxA WRITE_CHUNK a).1.length : Int))
          (buildChunk m maxA WRITE_CHUNK a).1 c hAck
      have hp := blWrite_proj ((buildChunk m maxA WRITE_CHUNK a).2 -
          ((buildChunk m maxA WRITE_CHUNK a).1.length : Int))
          (buildChunk m maxA WRITE_CHUNK a).1 c
      rcases hW : blWrite ((buildChunk m maxA WRITE_CHUNK a).2 -
          ((buildChunk m maxA WRITE_CHUNK a).1.length : Int))
          (buildChunk m maxA WRITE_CHUNK a).1 c with ⟨r, c1⟩
      rw [hW] at hok hp
      have hr : r = Except.ok true := hok
      subst hr
      simp only [writeLoop, hW]
      rw [if_neg hgt]
      exact ih _ c1 (allAck_of_script_eq c c1 hAck hp.1)

/-! ### Flash orchestrator claims -/

theorem writesOf_erase_range (p : Int) (k : Nat) :
    writesOf ((List.range k).map (fun i : Nat => Op.erase (p + (i : Int)))) = [] := by
  have h : (fun i : Nat => Op.erase (p + (i : Int))) =
      Op.erase ∘ (fun i : Nat => p + (i : Int)) := rfl
  rw [h, ← List.map_map, writesOf_map_erase]

theorem erasesOf_erase_range (p : Int) (k : Nat) :
    erasesOf ((List.range k).map (fun i : Nat => Op.erase (p + (i : Int)))) =
      (List.range k).map (fun i : Nat => p + (i : Int)) := by
  have h : (fun i : Nat => Op.erase (p + (i : Int))) =
      Op.erase ∘ (fun i : Nat => p + (i : Int)) := rfl
  rw [h, ← List.map_map, erasesOf_map_erase]

/-- Claim C1: under an all-ACK channel, flash erases exactly the pages
floor((minAddr-FLASH_BASE)/PAGE_SIZE) .. floor((maxAddr-FLASH_BASE)/PAGE_SIZE)
in ascending order (Math.floor on a real quotient is Int.fdiv); in
particular an image whose address range is 0x08000000 .. 0x080007FF
erases exactly page 0, i.e. startPage = endPage = 0. -/
theorem claim_C1 :
    (∀ (mem : RawMem) (c : Chan) (minA maxA : Int),
      jsMinKey mem = some minA → jsMaxKey mem = some maxA → c.ops = [] → AllAck c →
      erasesOf (flash mem c).2.ops =
        (List.range (Int.fdiv (maxA - FLASH_BASE) PAGE_SIZE -
            Int.fdiv (minA - FLASH_BASE) PAGE_SIZE + 1).toNat).map
          (fun i : Nat => Int.fdiv (minA - FLASH_BASE) PAGE_SIZE + (i : Int)))
    ∧ (∀ (mem : RawMem) (c : Chan),
      jsMinKey mem = some (0x08000000 : Int) → jsMaxKey mem = some (0x080007FF : Int) →
      c.ops = [] → AllAck c → erasesOf (flash mem c).2.ops = [0]) := by
  have main : ∀ (mem : RawMem) (c : Chan) (minA maxA : Int),
      jsMinKey mem = some minA → jsMaxKey mem = some maxA → c.ops = [] → AllAck c →
      erasesOf (flash mem c).2.ops =
        (List.range (Int.fdiv (maxA - FLASH_BASE) PAGE_SIZE -
            Int.fdiv (minA - FLASH_BASE) PAGE_SIZE + 1).toNat).map
          (fun i : Nat => Int.fdiv (minA - FLASH_BASE) PAGE_SIZE + (i : Int)) := by
    intro mem c minA maxA hmin hmax hops hAck
    obtain ⟨hok, hs, ho⟩ := eraseLoop_allAck
      (endPageOf maxA - startPageOf minA + 1).toNat (startPageOf minA) c hAck
    rcases hE : eraseLoop (endPageOf maxA - startPageOf minA + 1).toNat
      (startPageOf minA) c with ⟨r, c1⟩
    rw [hE] at hok hs ho
    have hr : r = Except.ok () := hok
    subst hr
    have ho1 : c1.ops = c.ops ++ (List.range
        (endPageOf maxA - startPageOf minA + 1).toNat).map
        (fun i : Nat => Op.erase (startPageOf minA + (i : Int))) := ho
    unfold flash
    rw [hmin, hmax]
    simp only [hE]
    rw [(writeLoop_spec mem maxA (maxA - minA + 1).toNat minA c1).2.1, ho1, hops,
      List.nil_append, erasesOf_erase_range]
    rfl
  refine ⟨main, fun mem c hmin hmax hops hAck => ?_⟩
  rw [main mem c _ _ hmin hmax hops hAck]
  decide

/-- Witness for claim C1 at a concrete one-page image and the all-ACK
channel. -/
theorem claim_C1_witness :
    erasesOf (flash memPage (chan0 allAckScript)).2.ops = [0] :=
  claim_C1.2 memPage (chan0 allAckScript) (by decide) (by decide) rfl (fun _ => rfl)

/-- Claim C5: the chunks flash writes are always a prefix of the
specification chunk sequence (consecutive fixed-size chunks in ascending
address order starting at minAddr, each byte taken from the image or
0xFF when absent); when flash succeeds the whole sequence was written
(so any chunk failure aborts the remainder); and an all-ACK channel
always succeeds. -/
theorem claim_C5 (mem : RawMem) (c : Chan) (minA maxA : Int)
    (hmin : jsMinKey mem = some minA) (hmax : jsMaxKey mem = some maxA)
    (hops : c.ops = []) :
    (∃ rest, writesOf (flash mem c).2.ops ++ rest =
        specChunks mem maxA (maxA - minA + 1).toNat minA)
    ∧ ((flash mem c).1 = Except.ok () →
        writesOf (flash mem c).2.ops =
          specChunks mem maxA (maxA - minA + 1).toNat minA)
    ∧ (AllAck c → (flash mem c).1 = Except.ok ()) := by
  obtain ⟨hsE, k, hk, hoE, hokE, herrE⟩ := eraseLoop_spec
    (endPageOf maxA - startPageOf minA + 1).toNat (startPageOf minA) c
  rcases hE : eraseLoop (endPageOf maxA - startPageOf minA + 1).toNat
    (startPageOf minA) c with ⟨r, c1⟩
  rw [hE] at hsE hoE hokE herrE
  have hs1 : c1.script = c.script := hsE
  have ho1 : c1.ops = c.ops ++ (List.range k).map
      (fun i : Nat => Op.erase (startPageOf minA + (i : Int))) := hoE
  have hw1 : writesOf c1.ops = [] := by
    rw [ho1, hops, List.nil_append, writesOf_erase_range]
  unfold flash
  rw [hmin, hmax]
  simp only [hE]
  rcases r with e | u
  · refine ⟨⟨specChunks mem maxA (maxA - minA + 1).toNat minA, ?_⟩,
      fun hok => ?_, fun hAck => ?_⟩
    · rw [hw1]
      rfl
    · simp at hok
    · obtain ⟨hok2, _, _⟩ := eraseLoop_allAck
        (endPageOf maxA - startPageOf minA + 1).toNat (startPageOf minA) c hAck
      rw [hE] at hok2
      have : (Except.error e : Except Err Unit) = Except.ok () := hok2
      cases this
  · obtain ⟨hs2, he2, hno2, pre, rest, hw2, hsp2, hfull2⟩ :=
      writeLoop_spec mem maxA (maxA - minA + 1).toNat minA c1
    refine ⟨⟨rest, ?_⟩, fun hok => ?_, fun hAck => ?_⟩
    · rw [hw2, hw1, List.nil_append, hsp2]
    · rw [hw2, hw1, List.nil_append, ← hsp2, hfull2 hok (Nat.le_refl _),
        List.append_nil]
    · exact writeLoop_allAck mem maxA _ minA c1
        (allAck_of_script_eq c c1 hAck hs1)

/-- Witness for claim C5 at the one-byte image and the all-ACK channel. -/
theorem claim_C5_witness :
    (∃ rest, writesOf (flash mem1 (chan0 allAckScript)).2.ops ++ rest =
        specChunks mem1 FLASH_BASE (FLASH_BASE - FLASH_BASE + 1).toNat FLASH_BASE)
    ∧ ((flash mem1 (chan0 allAckScript)).1 = Except.ok () →
        writesOf (flash mem1 (chan0 allAckScript)).2.ops =
          specChunks mem1 FLASH_BASE (FLASH_BASE - FLASH_BASE + 1).toNat FLASH_BASE)
    ∧ (AllAck (chan0 allAckScript) → (flash mem1 (chan0 allAckScript)).1 = Except.ok ()) :=
  claim_C5 mem1 (chan0 allAckScript) FLASH_BASE FLASH_BASE (by decide) (by decide) rfl

/-- Claim C6: erases happen in ascending page order before any write and
a failed erase aborts immediately. Concretely, a channel that NACKs the
second erase makes flash stop after exactly the erase attempts for pages
0 and 1, zero write attempts, and the error names page 1; in general, an
erase failure for page q leaves an op log of exactly the ascending erase
attempts startPage..q and no write. -/
theorem claim_C6 :
    ((flash mem2 (chan0 nackSecondErase)).1 = Except.error (Err.eraseFailed 1)
      ∧ (flash mem2 (chan0 nackSecondErase)).2.ops = [Op.erase 0, Op.erase 1])
    ∧ (∀ (mem : RawMem) (c : Chan) (minA maxA q : Int),
      jsMinKey mem = some minA → jsMaxKey mem = some maxA → c.ops = [] →
      (flash mem c).1 = Except.error (Err.eraseFailed q) →
      writesOf (flash mem c).2.ops = []
      ∧ ∃ j : Nat, q = startPageOf minA + (j : Int)
          ∧ (flash mem c).2.ops = (List.range (j + 1)).map
              (fun i : Nat => Op.erase (startPageOf minA + (i : Int)))) := by
  refine ⟨⟨rfl, by decide⟩, ?_⟩
  intro mem c minA maxA q hmin hmax hops hfail
  obtain ⟨hsE, k, hk, hoE, hokE, herrE⟩ := eraseLoop_spec
    (endPageOf maxA - startPageOf minA + 1).toNat (startPageOf minA) c
  rcases hE : eraseLoop (endPageOf maxA - startPageOf minA + 1).toNat
    (startPageOf minA) c with ⟨r, c1⟩
  rw [hE] at hsE hoE hokE herrE
  have ho1 : c1.ops = c.ops ++ (List.range k).map
      (fun i : Nat => Op.erase (startPageOf minA + (i : Int))) := hoE
  unfold flash at hfail ⊢
  rw [hmin, hmax] at hfail ⊢
  simp only [hE] at hfail ⊢
  rcases r with e | u
  · have he : e = Err.eraseFailed q := by
      injection hfail
    subst he
    obtain ⟨j, hj, hq⟩ := herrE q rfl
    subst hj
    refine ⟨?_, j, hq, ?_⟩
    · rw [ho1, hops, List.nil_append, writesOf_erase_range]
    · rw [ho1, hops, List.nil_append]
  · obtain ⟨_, _, hno2, _⟩ := writeLoop_spec mem maxA (maxA - minA + 1).toNat minA c1
    exact absurd hfail (fun h => hno2 q h)

/-- Witness for the general part of claim C6 at the concrete
NACK-on-second-erase scenario. -/
theorem claim_C6_witness :
    writesOf (flash mem2 (chan0 nackSecondErase)).2.ops = []
    ∧ ∃ j : Nat, (1 : Int) = startPageOf FLASH_BASE + (j : Int)
        ∧ (flash mem2 (chan0 nackSecondErase)).2.ops = (List.range (j + 1)).map
            (fun i : Nat => Op.erase (startPageOf FLASH_BASE + (i : Int))) :=
  claim_C6.2 mem2 (chan0 nackSecondErase) FLASH_BASE (FLASH_BASE + PAGE_SIZE) 1
    (by decide) (by decide) rfl rfl

/-- Claim C10: every chunk flash passes to blWrite has length between 1
and WRITE_CHUNK = 32, so the length byte blWrite encodes (length - 1)
lies in [0, 255] and writeMemory's [1, 256] precondition holds by
construction (blWrite itself checks nothing). -/
theorem claim_C10 (mem : RawMem) (c : Chan) (minA maxA a : Int) (d : List JsNum)
    (hmin : jsMinKey mem = some minA) (hmax : jsMaxKey mem = some maxA)
    (hops : c.ops = []) (hw : Op.write a d ∈ (flash mem c).2.ops) :
    1 ≤ d.length ∧ d.length ≤ WRITE_CHUNK ∧ d.length - 1 ≤ 255 := by
  obtain ⟨hsE, k, hk, hoE, hokE, herrE⟩ := eraseLoop_spec
    (endPageOf maxA - startPageOf minA + 1).toNat (startPageOf minA) c
  rcases hE : eraseLoop (endPageOf maxA - startPageOf minA + 1).toNat
    (startPageOf minA) c with ⟨r, c1⟩
  rw [hE] at hsE hoE hokE herrE
  have ho1 : c1.ops = c.ops ++ (List.range k).map
      (fun i : Nat => Op.erase (startPageOf minA + (i : Int))) := hoE
  have hw1 : writesOf c1.ops = [] := by
    rw [ho1, hops, List.nil_append, writesOf_erase_range]
  unfold flash at hw
  rw [hmin, hmax] at hw
  simp only [hE] at hw
  rcases r with e | u
  · exfalso
    have hw' : Op.write a d ∈ c1.ops := hw
    have : (a, d) ∈ writesOf c1.ops := mem_writesOf _ a d hw'
    rw [hw1] at this
    cases this
  · obtain ⟨hs2, he2, hno2, pre, rest, hw2, hsp2, hfull2⟩ :=
      writeLoop_spec mem maxA (maxA - minA + 1).toNat minA c1
    have hmem : (a, d) ∈ writesOf
        (writeLoop mem maxA (maxA - minA + 1).toNat minA c1).2.ops :=
      mem_writesOf _ a d hw
    rw [hw2, hw1, List.nil_append] at hmem
    have hmem2 : (a, d) ∈ specChunks mem maxA (maxA - minA + 1).toNat minA := by
      rw [← hsp2]
      exact List.mem_append.mpr (Or.inl hmem)
    have hb := specChunks_mem_len mem maxA (maxA - minA + 1).toNat minA (a, d) hmem2
    have hb1 : 1 ≤ d.length := hb.1
    have hb2 : d.length ≤ WRITE_CHUNK := hb.2
    refine ⟨hb1, hb2, ?_⟩
    have h32 : WRITE_CHUNK = 32 := rfl
    omega

/-- Witness for claim C10 at the one-byte image: the single chunk written
is [0xAA], of length 1. -/
theorem claim_C10_witness :
    1 ≤ ([some (0xAA : Int)] : List JsNum).length
    ∧ ([some (0xAA : Int)] : List JsNum).length ≤ WRITE_CHUNK
    ∧ ([some (0xAA : Int)] : List JsNum).length - 1 ≤ 255 :=
  claim_C10 mem1 (chan0 allAckScript) FLASH_BASE FLASH_BASE FLASH_BASE
    [some 0xAA] (by decide) (by decide) rfl (by decide)

/-! ### Sync retry loop (claim C7) -/

theorem jsToUint8_sync : jsToUint8 (some (0x7F : Int)) = 0x7F := rfl

theorem blSyncLoop_fail : ∀ (n : Nat) (c : Chan),
    (∀ i, i < n → c.script (c.idx + i) ≠ some ACK) →
    (blSyncLoop n c).1 = Except.error Err.syncFailed ∧
    (blSyncLoop n c).2.sent = c.sent ++ List.replicate n 0x7F ∧
    (blSyncLoop n c).2.events = c.events ++
      (List.replicate n [Ev.tx [0x7F], Ev.rd 500, Ev.slp 100]).flatten := by
  intro n
  induction n with
  | zero => intro c _; exact ⟨rfl, by simp [blSyncLoop], by simp [blSyncLoop]⟩
  | succ n ih =>
    intro c h
    have hnext : ∀ i, i < n → (syncStep c).script ((syncStep c).idx + i) ≠ some ACK := by
      intro i hi
      show c.script (c.idx + 1 + i) ≠ some ACK
      rw [Nat.add_assoc, Nat.add_comm 1 i]
      exact h (i + 1) (by omega)
    obtain ⟨ih1, ih2, ih3⟩ := ih (syncStep c) hnext
    simp only [blSyncLoop, readByteT, writeBytes, sleepC, jsToUint8_sync,
      List.map_cons, List.map_nil]
    rcases hv : c.script c.idx with _ | b
    · dsimp only
      refine ⟨ih1, ?_, ?_⟩
      · show (blSyncLoop n (syncStep c)).2.sent = _
        rw [ih2]
        show (c.sent ++ [0x7F]) ++ List.replicate n 0x7F = _
        simp [List.replicate_succ, List.append_assoc]
      · show (blSyncLoop n (syncStep c)).2.events = _
        rw [ih3]
        show (c.events ++ [Ev.tx [0x7F]] ++ [Ev.rd 500] ++ [Ev.slp 100]) ++ _ = _
        simp [List.replicate_succ, List.append_assoc]
    · have hbne : ¬b = ACK := fun hb => h 0 (by omega) (by rw [Nat.add_zero, hv, hb])
      dsimp only
      rw [if_neg hbne]
      refine ⟨ih1, ?_, ?_⟩
      · show (blSyncLoop n (syncStep c)).2.sent = _
        rw [ih2]
        show (c.sent ++ [0x7F]) ++ List.replicate n 0x7F = _
        simp [List.replicate_succ, List.append_assoc]
      · show (blSyncLoop n (syncStep c)).2.events = _
        rw [ih3]
        show (c.events ++ [Ev.tx [0x7F]] ++ [Ev.rd 500] ++ [Ev.slp 100]) ++ _ = _
        simp [List.replicate_succ, List.append_assoc]

theorem blSyncLoop_succeed : ∀ (n k : Nat) (c : Chan), k < n →
    c.script (c.idx + k) = some ACK →
    (∀ i, i < k → c.script (c.idx + i) ≠ some ACK) →
    (blSyncLoop n c).1 = Except.ok () ∧
    (blSyncLoop n c).2.sent = c.sent ++ List.replicate (k + 1) 0x7F ∧
    (blSyncLoop n c).2.events = c.events ++
      (List.replicate k [Ev.tx [0x7F], Ev.rd 500, Ev.slp 100]).flatten ++
      [Ev.tx [0x7F], Ev.rd 500] := by
  intro n
  induction n with
  | zero => intro k c hk; omega
  | succ n ih =>
    intro k c hk hack hpre
    simp only [blSyncLoop, readByteT, writeBytes, sleepC, jsToUint8_sync,
      List.map_cons, List.map_nil]
    rcases k with _ | k
    · rw [Nat.add_zero] at hack
      rcases hv : c.script c.idx with _ | b
      · rw [hv] at hack
        cases hack
      · rw [hv] at hack
        injection hack with hb
        subst hb
        dsimp only
        rw [if_pos rfl]
        refine ⟨rfl, ?_, ?_⟩
        · show c.sent ++ [0x7F] = c.sent ++ List.replicate (0 + 1) 0x7F
          simp
        · show c.events ++ [Ev.tx [0x7F]] ++ [Ev.rd 500] = _
          simp [List.append_assoc]
    · have h0 : c.script (c.idx + 0) ≠ some ACK := hpre 0 (by omega)
      rw [Nat.add_zero] at h0
      have hack' : (syncStep c).script ((syncStep c).idx + k) = some ACK := by
        show c.script (c.idx + 1 + k) = some ACK
        rw [Nat.add_assoc, Nat.add_comm 1 k]
        exact hack
      have hpre' : ∀ i, i < k → (syncStep c).script ((syncStep c).idx + i) ≠ some ACK := by
        intro i hi
        show c.script (c.idx + 1 + i) ≠ some ACK
        rw [Nat.add_assoc, Nat.add_comm 1 i]
        exact hpre (i + 1) (by omega)
      obtain ⟨ih1, ih2, ih3⟩ := ih k (syncStep c) (by omega) hack' hpre'
      rcases hv : c.script c.idx with _ | b
      · dsimp only
        refine ⟨ih1, ?_, ?_⟩
        · show (blSyncLoop n (syncStep c)).2.sent = _
          rw [ih2]
          show (c.sent ++ [0x7F]) ++ List.replicate (k + 1) 0x7F = _
          simp [List.replicate_succ, List.append_assoc]
        · show (blSyncLoop n (syncStep c)).2.events = _
          rw [ih3]
          show (c.events ++ [Ev.tx [0x7F]] ++ [Ev.rd 500] ++ [Ev.slp 100]) ++ _ ++ _ = _
          simp [List.replicate_succ, List.append_assoc]
      · have hbne : ¬b = ACK := fun hb => h0 (by rw [hv, hb])
        dsimp only
        rw [if_neg hbne]
        refine ⟨ih1, ?_, ?_⟩
        · show (blSyncLoop n (syncStep c)).2.sent = _
          rw [ih2]
          show (c.sent ++ [0x7F]) ++ List.replicate (k + 1) 0x7F = _
          simp [List.replicate_succ, List.append_assoc]
        · show (blSyncLoop n (syncStep c)).2.events = _
          rw [ih3]
          show (c.events ++ [Ev.tx [0x7F]] ++ [Ev.rd 500] ++ [Ev.slp 100]) ++ _ ++ _ = _
          simp [List.replicate_succ, List.append_assoc]

/-- Claim C7: each sync attempt sends the single byte 0x7F and reads one
byte with timeout 500 ms; an ACK (0x79) reply ends the loop successfully;
a timeout or any non-ACK reply leads to a 100 ms sleep and a retry; at
most 5 attempts are made, and when none of the 5 replies is ACK the call
fails with the sync error. -/
theorem claim_C7 (c : Chan) :
    ((∀ i, i < 5 → c.script (c.idx + i) ≠ some ACK) →
      (blSync c).1 = Except.error Err.syncFailed
      ∧ (blSync c).2.sent = c.sent ++ List.replicate 5 0x7F
      ∧ (blSync c).2.events = c.events ++
          (List.replicate 5 [Ev.tx [0x7F], Ev.rd 500, Ev.slp 100]).flatten)
    ∧ (∀ k, k < 5 → c.script (c.idx + k) = some ACK →
      (∀ i, i < k → c.script (c.idx + i) ≠ some ACK) →
      (blSync c).1 = Except.ok ()
      ∧ (blSync c).2.sent = c.sent ++ List.replicate (k + 1) 0x7F
      ∧ (blSync c).2.events = c.events ++
          (List.replicate k [Ev.tx [0x7F], Ev.rd 500, Ev.slp 100]).flatten ++
          [Ev.tx [0x7F], Ev.rd 500]) :=
  ⟨fun h => blSyncLoop_fail 5 c h,
   fun k hk hack hpre => blSyncLoop_succeed 5 k c hk hack hpre⟩

/-- Witness for claim C7: a channel that always replies 0x00 exhausts all
5 attempts and fails with the sync error; a channel whose third reply is
ACK succeeds after 3 attempts. -/
theorem claim_C7_witness :
    ((blSync (chan0 zeroScript)).1 = Except.error Err.syncFailed
      ∧ (blSync (chan0 zeroScript)).2.sent =
          (chan0 zeroScript).sent ++ List.replicate 5 0x7F
      ∧ (blSync (chan0 zeroScript)).2.events = (chan0 zeroScript).events ++
          (List.replicate 5 [Ev.tx [0x7F], Ev.rd 500, Ev.slp 100]).flatten)
    ∧ ((blSync (chan0 ackAt2Script)).1 = Except.ok ()
      ∧ (blSync (chan0 ackAt2Script)).2.sent =
          (chan0 ackAt2Script).sent ++ List.replicate (2 + 1) 0x7F
      ∧ (blSync (chan0 ackAt2Script)).2.events = (chan0 ackAt2Script).events ++
          (List.replicate 2 [Ev.tx [0x7F], Ev.rd 500, Ev.slp 100]).flatten ++
          [Ev.tx [0x7F], Ev.rd 500]) :=
  ⟨(claim_C7 (chan0 zeroScript)).1 (by decide),
   (claim_C7 (chan0 ackAt2Script)).2 2 (by decide) (by decide) (by decide)⟩

/-! ### Intel HEX round-trip (claim C3): digit-level parsing lemmas -/

theorem hexDigVal_hexDigitChar : ∀ d : Nat, d < 16 →
    hexDigVal (hexDigitChar d) = some d := by decide

theorem isJsSpace_hexDigitChar : ∀ d : Nat, d < 16 →
    isJsSpace (hexDigitChar d) = false := by decide

theorem hexDigitChar_ne_minus : ∀ d : Nat, d < 16 → hexDigitChar d ≠ '-' := by decide

theorem hexDigitChar_ne_plus : ∀ d : Nat, d < 16 → hexDigitChar d ≠ '+' := by decide

theorem hexDigitChar_ne_x : ∀ d : Nat, d < 16 → hexDigitChar d ≠ 'x' := by decide

theorem hexDigitChar_ne_X : ∀ d : Nat, d < 16 → hexDigitChar d ≠ 'X' := by decide

theorem hexTail_digits : ∀ (ds : List Nat) (acc : Nat), (∀ x ∈ ds, x < 16) →
    hexTail (ds.map hexDigitChar) acc = ds.foldl (fun a x => a * 16 + x) acc := by
  intro ds
  induction ds with
  | nil => intro acc _; rfl
  | cons d ds ih =>
    intro acc h
    have hd : d < 16 := h d (by simp)
    simp only [List.map_cons, hexTail, hexDigVal_hexDigitChar d hd, List.foldl_cons]
    exact ih (acc * 16 + d) (fun x hx => h x (by simp [hx]))

theorem stripHexMark_digits (d : Nat) (ds : List Nat)
    (hds : ∀ x ∈ ds, x < 16) :
    stripHexMark (hexDigitChar d :: ds.map hexDigitChar) =
      hexDigitChar d :: ds.map hexDigitChar := by
  unfold stripHexMark
  split
  · rename_i rest heq
    rcases ds with _ | ⟨d2, ds'⟩
    · simp at heq
    · simp only [List.map_cons, List.cons.injEq] at heq
      exact absurd heq.2.1 (hexDigitChar_ne_x d2 (hds d2 (by simp)))
  · rename_i rest heq
    rcases ds with _ | ⟨d2, ds'⟩
    · simp at heq
    · simp only [List.map_cons, List.cons.injEq] at heq
      exact absurd heq.2.1 (hexDigitChar_ne_X d2 (hds d2 (by simp)))
  · rfl

theorem jsParseIntHex_digits (d : Nat) (ds : List Nat) (hd : d < 16)
    (hds : ∀ x ∈ ds, x < 16) :
    jsParseIntHex (hexDigitChar d :: ds.map hexDigitChar) =
      some ((ds.foldl (fun a x => a * 16 + x) d : Nat) : Int) := by
  unfold jsParseIntHex
  rw [List.dropWhile_cons_of_neg (by rw [isJsSpace_hexDigitChar d hd]; exact Bool.false_ne_true)]
  split
  · rename_i rest heq
    rw [List.cons.injEq] at heq
    exact absurd heq.1 (hexDigitChar_ne_minus d hd)
  · rename_i rest heq
    rw [List.cons.injEq] at heq
    exact absurd heq.1 (hexDigitChar_ne_plus d hd)
  · rw [stripHexMark_digits d ds hds]
    simp only [hexStart, hexDigVal_hexDigitChar d hd]
    rw [hexTail_digits ds d hds]
    rfl

theorem jsParseIntHex_hex2 (n : Nat) (h : n < 256) :
    jsParseIntHex (hex2 n) = some ((n : Nat) : Int) := by
  have h1 : n / 16 < 16 := by omega
  have h2 : n % 16 < 16 := by omega
  have := jsParseIntHex_digits (n / 16) [n % 16] h1 (by
    intro x hx
    simp at hx
    omega)
  rw [show hex2 n = hexDigitChar (n / 16) :: [n % 16].map hexDigitChar from rfl, this]
  congr 1
  show ((n / 16 * 16 + n % 16 : Nat) : Int) = ((n : Nat) : Int)
  congr 1
  omega

theorem jsParseIntHex_hex4 (n : Nat) (h : n < 65536) :
    jsParseIntHex (hex4 n) = some ((n : Nat) : Int) := by
  have h1 : n / 256 / 16 < 16 := by omega
  have := jsParseIntHex_digits (n / 256 / 16) [n / 256 % 16, n % 256 / 16, n % 256 % 16]
    h1 (by
      intro x hx
      simp at hx
      rcases hx with hx | hx | hx <;> omega)
  rw [show hex4 n = hexDigitChar (n / 256 / 16) ::
    [n / 256 % 16, n % 256 / 16, n % 256 % 16].map hexDigitChar from rfl, this]
  congr 1
  show (((n / 256 / 16 * 16 + n / 256 % 16) * 16 + n % 256 / 16) * 16 + n % 256 % 16
    : Nat) = ((n : Nat) : Int)
  congr 1
  omega

/-! ### Substring extraction on encoded lines -/

theorem jsSubstr_drop2 (c1 c2 : Char) (l : List Char) (n len : Nat) :
    jsSubstr (c1 :: c2 :: l) (n + 2) len = jsSubstr l n len := rfl

theorem jsSubstr_drop9 (c1 c2 c3 c4 c5 c6 c7 c8 c9 : Char) (l : List Char) (n len : Nat) :
    jsSubstr (c1 :: c2 :: c3 :: c4 :: c5 :: c6 :: c7 :: c8 :: c9 :: l) (n + 9) len =
    jsSubstr l n len := rfl

theorem flatten_extract : ∀ (bytes : List Nat) (j : Nat) (hj : j < bytes.length)
    (tail : List Char),
    jsSubstr ((bytes.map hex2).flatten ++ tail) (j * 2) 2 = hex2 (bytes.get ⟨j, hj⟩) := by
  intro bytes
  induction bytes with
  | nil => intro j hj; simp at hj
  | cons v vs ih =>
    intro j hj tail
    rcases j with _ | j
    · rfl
    · have h2 : (j + 1) * 2 = j * 2 + 2 := by ring
      rw [h2]
      show jsSubstr (hexDigitChar (v / 16) :: hexDigitChar (v % 16) ::
        ((vs.map hex2).flatten ++ tail)) (j * 2 + 2) 2 = _
      rw [jsSubstr_drop2]
      have hj' : j < vs.length := by
        simp [List.length_cons] at hj
        omega
      exact ih j hj' tail

theorem encodeData_extract (off : Nat) (bytes : List Nat) (j : Nat)
    (hj : j < bytes.length) :
    jsSubstr (encodeRec (HexRec.data off bytes)) (9 + j * 2) 2 =
      hex2 (bytes.get ⟨j, hj⟩) := by
  have h9 : 9 + j * 2 = j * 2 + 9 := by ring
  rw [h9]
  show jsSubstr (':' :: hexDigitChar (bytes.length / 16) :: hexDigitChar (bytes.length % 16)
    :: hexDigitChar (off / 256 / 16) :: hexDigitChar (off / 256 % 16)
    :: hexDigitChar (off % 256 / 16) :: hexDigitChar (off % 256 % 16)
    :: hexDigitChar (0 / 16) :: hexDigitChar (0 % 16)
    :: ((bytes.map hex2).flatten ++
        hex2 (intelCk ([bytes.length, off / 256, off % 256, 0] ++ bytes))))
    (j * 2 + 9) 2 = _
  rw [jsSubstr_drop9]
  exact flatten_extract bytes j hj _

/-! ### One encoded line through parseHexLine -/

theorem writeDataLoop_spec : ∀ (vs : List Nat) (line : List Char) (b0 : Int) (off : Nat)
    (i : Nat) (m : RawMem),
    (∀ j (hj : j < vs.length),
      jsSubstr line (9 + (i + j) * 2) 2 = hex2 (vs.get ⟨j, hj⟩)) →
    (∀ x ∈ vs, x < 256) →
    writeDataLoop line b0 (some ((off : Nat) : Int)) i vs.length m =
      writeList m (b0 + ((off : Nat) : Int) + ((i : Nat) : Int)) vs := by
  intro vs
  induction vs with
  | nil => intro line b0 off i m _ _; rfl
  | cons v vs ih =>
    intro line b0 off i m hex hb
    show writeDataLoop line b0 (some ((off : Nat) : Int)) i (vs.length + 1) m = _
    simp only [writeDataLoop]
    have hv : jsParseIntHex (jsSubstr line (9 + i * 2) 2) = some ((v : Nat) : Int) := by
      have h0 := hex 0 (by simp)
      rw [show i + 0 = i from rfl] at h0
      rw [h0]
      exact jsParseIntHex_hex2 v (hb v (by simp))
    rw [hv]
    have hkey : jsAdd (jsAdd (some b0) (some ((off : Nat) : Int)))
        (some ((i : Nat) : Int)) = some (b0 + ((off : Nat) : Int) + ((i : Nat) : Int)) := rfl
    rw [hkey]
    have hrec := ih line b0 off (i + 1)
      (memSet m (some (b0 + ((off : Nat) : Int) + ((i : Nat) : Int))) (some ((v : Nat) : Int)))
      (fun j hj => by
        have hx := hex (j + 1) (by simpa using hj)
        rw [show i + (j + 1) = i + 1 + j from by omega] at hx
        exact hx)
      (fun x hx => hb x (by simp [hx]))
    rw [hrec]
    show _ = writeList (memSet m (some (b0 + ((off : Nat) : Int) + ((i : Nat) : Int)))
      (some ((v : Nat) : Int))) (b0 + ((off : Nat) : Int) + ((i : Nat) : Int) + 1) vs
    congr 1
    push_cast
    ring

theorem parseData (b0 : Int) (m : RawMem) (off : Nat) (bytes : List Nat)
    (hoff : off < 65536) (hlen : bytes.length ≤ 255) (hb : ∀ x ∈ bytes, x < 256) :
    parseHexLine (b0, m) (encodeRec (HexRec.data off bytes)) =
      (b0, writeList m (b0 + ((off : Nat) : Int)) bytes) := by
  unfold parseHexLine
  rw [if_pos (show (encodeRec (HexRec.data off bytes)).head? = some ':' from rfl)]
  rw [show jsSubstr (encodeRec (HexRec.data off bytes)) 7 2 = hex2 0 from rfl,
    jsParseIntHex_hex2 0 (by omega)]
  rw [if_neg (by decide), if_pos (by decide)]
  rw [show jsSubstr (encodeRec (HexRec.data off bytes)) 3 4 = hex4 off from rfl,
    jsParseIntHex_hex4 off hoff]
  rw [show jsSubstr (encodeRec (HexRec.data off bytes)) 1 2 = hex2 bytes.length from rfl,
    jsParseIntHex_hex2 bytes.length (by omega)]
  rw [show lenIter (some ((bytes.length : Nat) : Int)) = bytes.length from by
    simp [lenIter]]
  rw [writeDataLoop_spec bytes (encodeRec (HexRec.data off bytes)) b0 off 0 m
    (fun j hj => by
      rw [show (0 : Nat) + j = j from by omega]
      exact encodeData_extract off bytes j hj) hb]
  congr 2
  push_cast
  ring

theorem parseEsa (b0 : Int) (m : RawMem) (v : Nat) (hv : v < 65536) :
    parseHexLine (b0, m) (encodeRec (HexRec.esa v)) = (jsShl16 ((v : Nat) : Int), m) := by
  unfold parseHexLine
  rw [if_pos (show (encodeRec (HexRec.esa v)).head? = some ':' from rfl)]
  rw [show jsSubstr (encodeRec (HexRec.esa v)) 7 2 = hex2 4 from rfl,
    jsParseIntHex_hex2 4 (by omega)]
  rw [if_pos (by decide)]
  rw [show jsSubstr (encodeRec (HexRec.esa v)) 9 4 = hex4 v from rfl,
    jsParseIntHex_hex4 v hv]

theorem parseEof (st : Int × RawMem) : parseHexLine st (encodeRec HexRec.eof) = st := by
  unfold parseHexLine
  rw [if_pos (show (encodeRec HexRec.eof).head? = some ':' from rfl)]
  rw [show jsSubstr (encodeRec HexRec.eof) 7 2 = hex2 1 from rfl,
    jsParseIntHex_hex2 1 (by omega)]
  rw [if_neg (by decide), if_neg (by decide)]

/-! ### Map semantics and round-trip assembly -/

theorem memGet_memSet (m : RawMem) (k k' : Option Int) (v : JsNum) :
    memGet (memSet m k v) k' = if k' = k then some v else memGet m k' := by
  induction m with
  | nil =>
    by_cases h : k' = k
    · simp [memSet, memGet, List.find?, h]
    · have h' : ¬k = k' := fun hc => h hc.symm
      simp [memSet, memGet, List.find?, h, h']
  | cons p rest ih =>
    by_cases h0 : p.1 = k
    · rw [show memSet (p :: rest) k v = (p.1, v) :: rest from by
        simp [memSet, h0]]
      by_cases h : k' = k
      · simp [memGet, List.find?, h0, h]
      · have hne : ¬p.1 = k' := by rw [h0]; exact fun hc => h hc.symm
        simp [memGet, List.find?, hne, h]
    · rw [show memSet (p :: rest) k v = (p.1, p.2) :: memSet rest k v from by
        simp [memSet, h0]]
      by_cases h1 : p.1 = k'
      · have hne : ¬k' = k := by rw [← h1]; exact fun hc => h0 hc
        simp [memGet, List.find?, h1, hne]
      · simp only [memGet, List.find?] at ih ⊢
        simp only [show (decide (p.1 = k') : Bool) = false from by simp [h1]]
        exact ih
  
theorem memGet_applyWrites_skip : ∀ (ws : List (Int × Nat)) (m : RawMem) (a : Int),
    (∀ w ∈ ws, (w : Int × Nat).1 ≠ a) →
    memGet (applyWrites m ws) (some a) = memGet m (some a) := by
  intro ws
  induction ws with
  | nil => intro m a _; rfl
  | cons w ws ih =>
    intro m a h
    show memGet (applyWrites (memSet m (some w.1) (some ((w.2 : Nat) : Int))) ws) (some a) = _
    rw [ih _ a (fun x hx => h x (by simp [hx])), memGet_memSet]
    rw [if_neg (by
      intro hc
      injection hc with hc2
      exact h w (by simp) hc2.symm)]

theorem memGet_applyWrites_hit : ∀ (ws : List (Int × Nat)) (m : RawMem) (a : Int) (v : Nat),
    (a, v) ∈ ws → (ws.map Prod.fst).Nodup →
    memGet (applyWrites m ws) (some a) = some (some ((v : Nat) : Int)) := by
  intro ws
  induction ws with
  | nil => intro m a v hmem; cases hmem
  | cons w ws ih =>
    intro m a v hmem hnd
    rw [List.map_cons, List.nodup_cons] at hnd
    show memGet (applyWrites (memSet m (some w.1) (some ((w.2 : Nat) : Int))) ws)
      (some a) = _
    rcases List.mem_cons.mp hmem with h | h
    · have ha : w.1 = a := by rw [← h]
      have hv : w.2 = v := by rw [← h]
      rw [memGet_applyWrites_skip ws _ a (by
        intro x hx hxa
        refine hnd.1 ?_
        have hwx : w.1 = x.1 := by rw [ha, ← hxa]
        rw [hwx]
        exact List.mem_map.mpr ⟨x, hx, rfl⟩)]
      rw [memGet_memSet, ha, if_pos rfl, hv]
    · exact ih _ a v h hnd.2

theorem writeList_applyWrites : ∀ (vs : List Nat) (m : RawMem) (a : Int),
    writeList m a vs = applyWrites m (seqWrites a vs) := by
  intro vs
  induction vs with
  | nil => intro m a; rfl
  | cons v vs ih =>
    intro m a
    show writeList (memSet m (some a) (some ((v : Nat) : Int))) (a + 1) vs = _
    rw [ih]
    rfl

theorem applyWrites_append (m : RawMem) (w1 w2 : List (Int × Nat)) :
    applyWrites m (w1 ++ w2) = applyWrites (applyWrites m w1) w2 :=
  List.foldl_append _ _ w1 w2

theorem parseFold : ∀ (recs : List HexRec) (b0 : Int) (m : RawMem),
    (∀ r ∈ recs, wfRec r) →
    List.foldl parseHexLine (b0, m) (recs.map encodeRec) =
      (foldBase b0 recs, applyWrites m (semWrites b0 recs)) := by
  intro recs
  induction recs with
  | nil => intro b0 m _; rfl
  | cons r rs ih =>
    intro b0 m h
    rw [List.map_cons, List.foldl_cons]
    rcases r with ⟨off, bytes⟩ | v | _
    · obtain ⟨hoff, hlen, hb⟩ := h (HexRec.data off bytes) (by simp)
      rw [parseData b0 m off bytes hoff hlen hb,
        ih b0 _ (fun x hx => h x (by simp [hx]))]
      show _ = (foldBase b0 (HexRec.data off bytes :: rs),
        applyWrites m (seqWrites (b0 + ((off : Nat) : Int)) bytes ++ semWrites b0 rs))
      rw [applyWrites_append, ← writeList_applyWrites]
      rfl
    · have hv : v < 65536 := h (HexRec.esa v) (by simp)
      rw [parseEsa b0 m v hv, ih _ _ (fun x hx => h x (by simp [hx]))]
      rfl
    · rw [parseEof (b0, m), ih b0 m (fun x hx => h x (by simp [hx]))]
      rfl

/-- Claim C3: a Data record (type 00) writes its payload bytes at
base + offset + i; an Extended Segment Address record (type 04) sets the
base to its 16-bit payload shifted left 16 (JS `<<`, which agrees with
value * 65536 for values below 0x8000); consequently, parsing a valid
Intel HEX file and reading back every covered address reproduces the
original payload bytes exactly (stated for files whose writes do not
overlap, so that each address has a unique original byte). -/
theorem claim_C3 :
    (∀ (b0 : Int) (m : RawMem) (off : Nat) (bytes : List Nat),
      off < 65536 → bytes.length ≤ 255 → (∀ x ∈ bytes, x < 256) →
      parseHexLine (b0, m) (encodeRec (HexRec.data off bytes)) =
        (b0, writeList m (b0 + ((off : Nat) : Int)) bytes))
    ∧ (∀ (b0 : Int) (m : RawMem) (v : Nat), v < 65536 →
      parseHexLine (b0, m) (encodeRec (HexRec.esa v)) = (jsShl16 ((v : Nat) : Int), m))
    ∧ (∀ v : Nat, v < 32768 → jsShl16 ((v : Nat) : Int) = ((v : Nat) : Int) * 65536)
    ∧ (∀ recs : List HexRec, (∀ r ∈ recs, wfRec r) →
      ((semWrites 0 recs).map Prod.fst).Nodup →
      ∀ (a : Int) (v : Nat), (a, v) ∈ semWrites 0 recs →
      memGet (parseHex (recs.map encodeRec)) (some a) = some (some ((v : Nat) : Int))) := by
  refine ⟨parseData, parseEsa, ?_, ?_⟩
  · intro v hv
    unfold jsShl16
    rw [show ((v : Nat) : Int) = Int.ofNat v from rfl,
      jsToUint32_ofNat v (by omega)]
    rw [show jsToInt32 (Int.ofNat (v * 65536)) = Int.ofNat (v * 65536) from
      jsToInt32_ofNat (v * 65536) (by omega)]
    show ((v * 65536 : Nat) : Int) = ((v : Nat) : Int) * 65536
    push_cast
    ring
  · intro recs hwf hnd a v hmem
    unfold parseHex
    rw [parseFold recs 0 [] hwf]
    exact memGet_applyWrites_hit (semWrites 0 recs) [] a v hmem hnd

/-- Witness for claim C3's round-trip at the concrete file
[ESA 0x0800, Data 0 [0xAB, 0xCD], EOF]: reading back address 0x08000000
yields 0xAB. -/
theorem claim_C3_witness :
    memGet (parseHex (recsEx.map encodeRec)) (some 0x08000000) =
      some (some ((0xAB : Nat) : Int)) :=
  claim_C3.2.2.2 recsEx
    (by
      intro r hr
      fin_cases hr
      · exact (by decide : (0x0800 : Nat) < 65536)
      · exact ⟨by decide, by decide, by decide⟩
      · exact trivial)
    (by decide) 0x08000000 0xAB (by decide)

end STM32
